import Mathlib

/-!
# Slot occupancy layer of lcelib (`containers/indices/TableWithStatus.H`)

A shallow embedding of the three `TableWithStatus` variants (implicit sentinel key, external
boolean array, embedded key+flag pair) over a model of the slot storage they wrap, followed by
the properties of the occupancy contract.

Conventions of the embedding:
* a read of slot `i` returns `Option`; `none` stands for an index outside the storage, which the
  source leaves undefined;
* a write through a reference is a function returning the new table; outside the storage it
  returns the table as it was;
* contents the source leaves uninitialised (fresh storage, slots the base storage adds in a
  resize) are an explicit argument (`init`, `fill`), so every statement quantifies over them;
  the `resize` the implicit and the embedded variant inherit follows the spec's contract of
  `resize`, under which an added slot starts Empty.
-/

namespace TableWithStatus

/-! ## Slot storage (the base class `Table<...>` and `ArrayBase<bool>`) -/

/-- Modelled from the spec: the SlotStore collaborator, i.e. the base class `Table<KeyType,
ValueType, Policy, Params, Index>` (headers `ArrayBase.H` and the table classes are not among the
sources). It is contiguous storage of key/value slots indexed from 0 to the capacity. -/
structure SlotStore (K V : Type) where
  slots : List (K × V)
deriving DecidableEq, Repr

namespace SlotStore

variable {K V : Type}

/-- Modelled from the spec: `super(size)`, storage of `size` slots. The spec does not say what a
fresh slot holds, so the contents are the argument `init`. -/
def create (size : Nat) (init : Nat → K × V) : SlotStore K V :=
  ⟨(List.range size).map init⟩

/-- Number of slots of the storage. -/
def capacity (s : SlotStore K V) : Nat := s.slots.length

/-- Modelled from the spec: `super::constRefToKey(i)`, raw indexed key access. -/
def constRefToKey (s : SlotStore K V) (i : Nat) : Option K :=
  (s.slots[i]?).map Prod.fst

/-- Modelled from the spec: raw indexed access to the value stored beside the key of slot `i`. -/
def valueAt (s : SlotStore K V) (i : Nat) : Option V :=
  (s.slots[i]?).map Prod.snd

/-- Modelled from the spec: a write through the mutable reference `super::refToKey(i)`; the key
of slot `i` becomes `f` of the old key, the value stays. -/
def modifyKey (s : SlotStore K V) (i : Nat) (f : K → K) : SlotStore K V :=
  match s.slots[i]? with
  | some p => ⟨s.slots.set i (f p.1, p.2)⟩
  | none => s

/-- Modelled from the spec: `super::resize(newSize, oldSize)`. Slots below
`min newSize oldSize` keep their data by index; the spec does not say what an added slot holds,
so those contents are the argument `fill`. -/
def resize (s : SlotStore K V) (newSize oldSize : Nat) (fill : Nat → K × V) : SlotStore K V :=
  ⟨(List.range newSize).map
    (fun i => if i < oldSize then (s.slots[i]?).getD (fill i) else fill i)⟩

/-- Modelled from the spec: `super::copyElemTo(dest, loc, i)`, element relocation: the key and
value of slot `i` of `s` are copied into slot `loc` of `dest`. The result is the new `dest`. -/
def copyElemTo (s dest : SlotStore K V) (loc i : Nat) : SlotStore K V :=
  match s.slots[i]? with
  | some p => ⟨dest.slots.set loc p⟩
  | none => dest

/-- Modelled from the spec: both storages after `super::copyElemTo(dest, loc, i)` when `dest`
is another object than the source: the relocation copies out of the source, which is only
read. Returns `(source, dest)` afterwards. -/
def copyElemToBoth (s dest : SlotStore K V) (loc i : Nat) : SlotStore K V × SlotStore K V :=
  (s, s.copyElemTo dest loc i)

/-- Modelled from the spec: `super::shallowMoveTo(dest)`, the storage handoff: `dest` takes the
whole backing storage and the source is left without any. Returns `(source, dest)` afterwards. -/
def shallowMoveTo (s _dest : SlotStore K V) : SlotStore K V × SlotStore K V :=
  (⟨[]⟩, ⟨s.slots⟩)

end SlotStore

/-- Modelled from the spec: `ArrayBase<bool>`, the array of booleans parallel to the slots. -/
structure StatusArray where
  bits : List Bool
deriving DecidableEq, Repr

namespace StatusArray

/-- Modelled from the spec: `status(size)`. The constructor comment of the external variant says
the status "is automagically set as false". -/
def create (size : Nat) : StatusArray := ⟨List.replicate size false⟩

/-- Read of `status[i]`. -/
def get (a : StatusArray) (i : Nat) : Option Bool := a.bits[i]?

/-- Write `status[i] = b`. -/
def set (a : StatusArray) (i : Nat) (b : Bool) : StatusArray := ⟨a.bits.set i b⟩

/-- Modelled from the spec: `status.resize(newSize, oldSize)`: the array gets length `newSize`,
cells below `min newSize oldSize` keep their value, added cells read `false`. -/
def resize (a : StatusArray) (newSize oldSize : Nat) : StatusArray :=
  ⟨(List.range newSize).map (fun i => if i < oldSize then (a.bits[i]?).getD false else false)⟩

/-- Modelled from the spec: `status.shallowMoveTo(dest.status)`, handoff of the boolean array.
Returns `(source, dest)` afterwards. -/
def shallowMoveTo (a _dest : StatusArray) : StatusArray × StatusArray :=
  (⟨[]⟩, ⟨a.bits⟩)

end StatusArray

/-- Outcome of an accessor that checks its precondition with `assert`. -/
inductive Fault where
  | assertionFailed
  | outOfStorage
deriving DecidableEq, Repr

/-! ## Implicit status: the non-specialised template -/

namespace Implicit

variable {K V : Type} [DecidableEq K]

/-- The implicit variant derives from `Table<KeyType, ...>` and adds no member. -/
abbrev Table (K V : Type) := SlotStore K V

/-- Source: `isUsed(i)`, `super::constRefToKey(i) != Policy::MagicEmptyKey`. -/
def isUsed (magicEmptyKey : K) (t : Table K V) (i : Nat) : Option Bool :=
  (t.constRefToKey i).map (fun k => k != magicEmptyKey)

/-- Source: `setAsUsed(i)`, whose body is empty. -/
def setAsUsed (t : Table K V) (_i : Nat) : Table K V := t

/-- Source: `setAsEmpty(i)`, `super::refToKey(i) = Policy::MagicEmptyKey`. -/
def setAsEmpty (magicEmptyKey : K) (t : Table K V) (i : Nat) : Table K V :=
  t.modifyKey i (fun _ => magicEmptyKey)

/-- Source: the constructor, `super(size)` followed by `setAsEmpty(i)` for `i = 0 .. size-1`. -/
def create (magicEmptyKey : K) (size : Nat) (init : Nat → K × V) : Table K V :=
  (List.range size).foldl (fun t i => setAsEmpty magicEmptyKey t i) (SlotStore.create size init)

/-- Source: an assignment `refToKey(i) = k` (the accessor forwards to `super::refToKey(i)`). -/
def refToKeyAssign (t : Table K V) (i : Nat) (k : K) : Table K V :=
  t.modifyKey i (fun _ => k)

/-- Source: `constRefToKey(i)` with assertions evaluated: `assert(isUsed(i))`, then
`super::constRefToKey(i)`. -/
def constRefToKey (magicEmptyKey : K) (t : Table K V) (i : Nat) : Except Fault K :=
  match isUsed magicEmptyKey t i with
  | none => .error .outOfStorage
  | some false => .error .assertionFailed
  | some true =>
    match SlotStore.constRefToKey t i with
    | some k => .ok k
    | none => .error .outOfStorage

/-- Modelled from the spec: `resize(newSize, oldSize)` of the implicit variant. The variant
declares no `resize`, so the call is the one of the base table, which is not among the
sources. The spec's contract of `resize`: slots below `min newSize oldSize` keep their data and
occupancy by index, and newly added slots start Empty, which under the implicit strategy is a
slot whose key is the sentinel. The value of an added slot is the argument `fill`. -/
def resize (magicEmptyKey : K) (t : Table K V) (newSize oldSize : Nat) (fill : Nat → V) :
    Table K V :=
  SlotStore.resize t newSize oldSize (fun i => (magicEmptyKey, fill i))

/-- The implicit variant declares no `copyElemTo`: a call reaches `super::copyElemTo`. -/
def copyElemTo (t dest : Table K V) (loc i : Nat) : Table K V :=
  SlotStore.copyElemTo t dest loc i

end Implicit

/-! ## External status: the `ExtStatusPolicy` specialisation -/

namespace ExtStatusPolicy

variable {K V : Type}

/-- The external variant: the base table plus the member `ArrayBase<bool> status`. -/
structure Table (K V : Type) where
  store : SlotStore K V
  status : StatusArray
deriving DecidableEq, Repr

/-- Source: the constructor, `super(size), status(size)`. -/
def create (size : Nat) (init : Nat → K × V) : Table K V :=
  ⟨SlotStore.create size init, StatusArray.create size⟩

/-- Capacity of the table: the number of slots of the base storage. -/
def capacity (t : Table K V) : Nat := t.store.capacity

/-- Well-formed external table: the status array is as long as the slot storage. -/
def WF (t : Table K V) : Prop :=
  t.status.bits.length = t.store.capacity

instance (t : Table K V) : Decidable (WF t) := by
  unfold WF
  infer_instance

/-- Source: `isUsed(i)`, `return status[i]`. -/
def isUsed (t : Table K V) (i : Nat) : Option Bool := t.status.get i

/-- Source: `setAsUsed(i)`, `status[i] = true`. -/
def setAsUsed (t : Table K V) (i : Nat) : Table K V :=
  { t with status := t.status.set i true }

/-- Source: `setAsEmpty(i)`, `status[i] = false`. -/
def setAsEmpty (t : Table K V) (i : Nat) : Table K V :=
  { t with status := t.status.set i false }

/-- The inherited `constRefToKey(i)` of the base table. -/
def constRefToKey (t : Table K V) (i : Nat) : Option K := t.store.constRefToKey i

/-- The value stored beside the key of slot `i`. -/
def valueAt (t : Table K V) (i : Nat) : Option V := t.store.valueAt i

/-- An assignment `refToKey(i) = k` through the inherited accessor of the base table. -/
def refToKeyAssign (t : Table K V) (i : Nat) (k : K) : Table K V :=
  { t with store := t.store.modifyKey i (fun _ => k) }

/-- Source: `resize(newSize, oldSize)`, `super::resize` and then `status.resize`. -/
def resize (t : Table K V) (newSize oldSize : Nat) (fill : Nat → K × V) : Table K V :=
  ⟨t.store.resize newSize oldSize fill, t.status.resize newSize oldSize⟩

/-- Source: `copyElemTo(dest, loc, i)`, `dest.status[loc] = true` and then
`super::copyElemTo(dest, loc, i)`. The result is the new `dest`. -/
def copyElemTo (t dest : Table K V) (loc i : Nat) : Table K V :=
  let dest1 : Table K V := { dest with status := dest.status.set loc true }
  { dest1 with store := t.store.copyElemTo dest1.store loc i }

/-- Source: `copyElemTo(dest, loc, i)` when `dest` is another object than the source, both
tables afterwards: `dest.status[loc] = true` writes the status array of `dest` and no statement
writes the one of the source; then `super::copyElemTo(dest, loc, i)`. Returns `(source, dest)`
afterwards. -/
def copyElemToBoth (t dest : Table K V) (loc i : Nat) : Table K V × Table K V :=
  let dest1 : Table K V := { dest with status := dest.status.set loc true }
  let stores := t.store.copyElemToBoth dest1.store loc i
  ({ t with store := stores.1 }, { dest1 with store := stores.2 })

/-- Source: `shallowMoveTo(dest)`, `status.shallowMoveTo(dest.status)` and then
`super::shallowMoveTo(dest)`. Returns `(source, dest)` afterwards. -/
def shallowMoveTo (t dest : Table K V) : Table K V × Table K V :=
  let st := t.status.shallowMoveTo dest.status
  let sl := t.store.shallowMoveTo dest.store
  (⟨sl.1, st.1⟩, ⟨sl.2, st.2⟩)

end ExtStatusPolicy

/-! ## Embedded status: the `EmbStatusPolicy` specialisation -/

namespace EmbStatusPolicy

variable {K V : Type}

/-- The embedded variant derives from `Table<Pair<KeyType,bool>, ...>` and adds no member; the
pair `(first, second)` is the key and its flag. -/
abbrev Table (K V : Type) := SlotStore (K × Bool) V

/-- Source: `isUsed(i)`, `super::constRefToKey(i).second() == true`. -/
def isUsed (t : Table K V) (i : Nat) : Option Bool :=
  (SlotStore.constRefToKey t i).map (fun p => p.2 == true)

/-- Source: `setAsUsed(i)`, `super::refToKey(i).second() = true`. -/
def setAsUsed (t : Table K V) (i : Nat) : Table K V :=
  t.modifyKey i (fun p => (p.1, true))

/-- Source: `setAsEmpty(i)`, `super::refToKey(i).second() = false`. -/
def setAsEmpty (t : Table K V) (i : Nat) : Table K V :=
  t.modifyKey i (fun p => (p.1, false))

/-- Source: the constructor, `super(size)` followed by `setAsEmpty(i)` for `i = 0 .. size-1`. -/
def create (size : Nat) (init : Nat → (K × Bool) × V) : Table K V :=
  (List.range size).foldl (fun t i => setAsEmpty t i) (SlotStore.create size init)

/-- Source: `constRefToKey(i)`, `super::constRefToKey(i).first()`. -/
def constRefToKey (t : Table K V) (i : Nat) : Option K :=
  (SlotStore.constRefToKey t i).map Prod.fst

/-- Source: an assignment `refToKey(i) = k`, where `refToKey(i)` is
`super::refToKey(i).first()`. -/
def refToKeyAssign (t : Table K V) (i : Nat) (k : K) : Table K V :=
  t.modifyKey i (fun p => (k, p.2))

/-- Modelled from the spec: `resize(newSize, oldSize)` of the embedded variant. The variant
declares no `resize`, so the call is the one of the base table, which is not among the
sources. The spec's contract of `resize`: slots below `min newSize oldSize` keep their data and
occupancy by index, and newly added slots start Empty, which under the embedded strategy is a
slot whose flag is false. The key and the value of an added slot are the argument `fill`. -/
def resize (t : Table K V) (newSize oldSize : Nat) (fill : Nat → K × V) : Table K V :=
  SlotStore.resize t newSize oldSize (fun i => (((fill i).1, false), (fill i).2))

/-- The embedded variant declares no `copyElemTo`: a call reaches `super::copyElemTo`. -/
def copyElemTo (t dest : Table K V) (loc i : Nat) : Table K V :=
  SlotStore.copyElemTo t dest loc i

end EmbStatusPolicy

/-! ## Sequences of caller operations -/

/-- A caller operation on one slot: an assignment `refToKey(i) = k`, `setAsUsed(i)` or
`setAsEmpty(i)`. -/
inductive SlotOp (K : Type) where
  | writeKey (i : Nat) (k : K)
  | setAsUsed (i : Nat)
  | setAsEmpty (i : Nat)
deriving DecidableEq, Repr

/-- The slot an operation addresses. -/
def SlotOp.index {K : Type} : SlotOp K → Nat
  | .writeKey i _ => i
  | .setAsUsed i => i
  | .setAsEmpty i => i

/-- One slot operation on an external table. -/
def ExtStatusPolicy.applyOp {K V : Type} (t : ExtStatusPolicy.Table K V) :
    SlotOp K → ExtStatusPolicy.Table K V
  | .writeKey i k => ExtStatusPolicy.refToKeyAssign t i k
  | .setAsUsed i => ExtStatusPolicy.setAsUsed t i
  | .setAsEmpty i => ExtStatusPolicy.setAsEmpty t i

/-- A sequence of slot operations on an external table, first operation first. -/
def ExtStatusPolicy.run {K V : Type} (t : ExtStatusPolicy.Table K V) (ops : List (SlotOp K)) :
    ExtStatusPolicy.Table K V :=
  ops.foldl ExtStatusPolicy.applyOp t

/-- One slot operation on an embedded table. -/
def EmbStatusPolicy.applyOp {K V : Type} (t : EmbStatusPolicy.Table K V) :
    SlotOp K → EmbStatusPolicy.Table K V
  | .writeKey i k => EmbStatusPolicy.refToKeyAssign t i k
  | .setAsUsed i => EmbStatusPolicy.setAsUsed t i
  | .setAsEmpty i => EmbStatusPolicy.setAsEmpty t i

/-- A sequence of slot operations on an embedded table, first operation first. -/
def EmbStatusPolicy.run {K V : Type} (t : EmbStatusPolicy.Table K V) (ops : List (SlotOp K)) :
    EmbStatusPolicy.Table K V :=
  ops.foldl EmbStatusPolicy.applyOp t

/-- An operation of the caller on an external table: a slot operation or
`resize(newSize, oldSize)`, the latter with the contents the storage gives to added slots. -/
inductive ExtOp (K V : Type) where
  | slot (op : SlotOp K)
  | resize (newSize oldSize : Nat) (fill : Nat → K × V)

/-- The caller contract of an operation in a table state: a slot operation addresses a slot
below the capacity, a resize passes the current capacity as `oldSize`. -/
def ExtOp.admissible {K V : Type} (t : ExtStatusPolicy.Table K V) : ExtOp K V → Bool
  | .slot op => decide (op.index < ExtStatusPolicy.capacity t)
  | .resize _ oldSize _ => decide (oldSize = ExtStatusPolicy.capacity t)

/-- One caller operation on an external table. -/
def ExtOp.apply {K V : Type} (t : ExtStatusPolicy.Table K V) :
    ExtOp K V → ExtStatusPolicy.Table K V
  | .slot op => ExtStatusPolicy.applyOp t op
  | .resize newSize oldSize fill => ExtStatusPolicy.resize t newSize oldSize fill

/-- A sequence of caller operations on an external table; `none` when an operation breaks the
caller contract in the state it is applied to. -/
def ExtOp.runChecked {K V : Type} (t : ExtStatusPolicy.Table K V) :
    List (ExtOp K V) → Option (ExtStatusPolicy.Table K V)
  | [] => some t
  | op :: ops => if ExtOp.admissible t op then ExtOp.runChecked (ExtOp.apply t op) ops else none

/-- A step of the caller discipline of the implicit strategy: `insert i k` writes the key `k`
through `refToKey(i)` and calls `setAsUsed(i)`; `erase i` calls `setAsEmpty(i)`. -/
inductive CallerStep (K : Type) where
  | insert (i : Nat) (k : K)
  | erase (i : Nat)
deriving DecidableEq, Repr

/-- The discipline itself: the slot is below the capacity `n` and an inserted key is not the
sentinel. -/
def CallerStep.ok {K : Type} (magicEmptyKey : K) (n : Nat) : CallerStep K → Prop
  | .insert i k => i < n ∧ k ≠ magicEmptyKey
  | .erase i => i < n

/-- One step of the discipline on an implicit table. -/
def Implicit.step {K V : Type} [DecidableEq K] (magicEmptyKey : K) (t : Implicit.Table K V) :
    CallerStep K → Implicit.Table K V
  | .insert i k => Implicit.setAsUsed (Implicit.refToKeyAssign t i k) i
  | .erase i => Implicit.setAsEmpty magicEmptyKey t i

/-- One step of the discipline on an external table. -/
def ExtStatusPolicy.step {K V : Type} (t : ExtStatusPolicy.Table K V) :
    CallerStep K → ExtStatusPolicy.Table K V
  | .insert i k => ExtStatusPolicy.setAsUsed (ExtStatusPolicy.refToKeyAssign t i k) i
  | .erase i => ExtStatusPolicy.setAsEmpty t i

/-- A sequence of steps of the discipline on an implicit table, first step first. -/
def Implicit.runSteps {K V : Type} [DecidableEq K] (magicEmptyKey : K)
    (t : Implicit.Table K V) (steps : List (CallerStep K)) : Implicit.Table K V :=
  steps.foldl (Implicit.step magicEmptyKey) t

/-- A sequence of steps of the discipline on an external table, first step first. -/
def ExtStatusPolicy.runSteps {K V : Type} (t : ExtStatusPolicy.Table K V)
    (steps : List (CallerStep K)) : ExtStatusPolicy.Table K V :=
  steps.foldl ExtStatusPolicy.step t

/-- Agreement of an implicit and an external table at slot `j`: both are inside their storage
there, they report the same occupancy, and they hold the same key when the slot is used. -/
def AgreeAt {K V : Type} [DecidableEq K] (magicEmptyKey : K) (j : Nat)
    (imp : Implicit.Table K V) (ext : ExtStatusPolicy.Table K V) : Prop :=
  Implicit.isUsed magicEmptyKey imp j = ExtStatusPolicy.isUsed ext j ∧
  (∃ b, ExtStatusPolicy.isUsed ext j = some b) ∧
  (∃ k, ExtStatusPolicy.constRefToKey ext j = some k) ∧
  (ExtStatusPolicy.isUsed ext j = some true →
    SlotStore.constRefToKey imp j = ExtStatusPolicy.constRefToKey ext j)

/-! ## Concrete tables used as instances -/

/-- Implicit table over `Nat` keys and values, sentinel 0, capacity 3, key 11 written at
slot 1. -/
def sampleImplicit : Implicit.Table Nat Nat :=
  Implicit.setAsUsed
    (Implicit.refToKeyAssign (Implicit.create 0 3 (fun j => (j + 1, j + 20))) 1 11) 1

/-- External table of capacity 3, key 11 written at slot 1 and the slot marked used. -/
def sampleExt : ExtStatusPolicy.Table Nat Nat :=
  ExtStatusPolicy.setAsUsed
    (ExtStatusPolicy.refToKeyAssign (ExtStatusPolicy.create 3 (fun j => (j + 1, j + 20))) 1 11) 1

/-- Embedded table of capacity 3, key 11 written at slot 1 and the slot marked used. -/
def sampleEmb : EmbStatusPolicy.Table Nat Nat :=
  EmbStatusPolicy.setAsUsed
    (EmbStatusPolicy.refToKeyAssign
      (EmbStatusPolicy.create 3 (fun j => ((j + 1, true), j + 20))) 1 11) 1

/-- Fresh implicit table of capacity 4, sentinel 0. -/
def freshImplicit : Implicit.Table Nat Nat := Implicit.create 0 4 (fun j => (j + 5, 0))

/-- Fresh external table of capacity 4. -/
def freshExt : ExtStatusPolicy.Table Nat Nat := ExtStatusPolicy.create 4 (fun j => (j + 5, 0))

/-- Fresh embedded table of capacity 4. -/
def freshEmb : EmbStatusPolicy.Table Nat Nat :=
  EmbStatusPolicy.create 4 (fun j => ((j + 5, true), 0))

/-- A sequence of slot operations on a table of capacity 3: key 9 is written at slot 1 and the
slot marked used, slot 0 is marked empty, slot 2 is marked used. -/
def sampleOps : List (SlotOp Nat) :=
  [.writeKey 1 9, .setAsUsed 1, .setAsEmpty 0, .setAsUsed 2]

/-- A run of the caller discipline on a table of capacity 3: keys 9 and 4 are inserted at
slots 1 and 2, slot 1 is erased and then filled with key 6. -/
def sampleSteps : List (CallerStep Nat) :=
  [.insert 1 9, .insert 2 4, .erase 1, .insert 1 6]

/-- A sequence of caller operations on an external table of capacity 3: slot 1 is marked
used, the table grows to 5, key 8 is written at slot 4, the table shrinks to 2. -/
def sampleExtOps : List (ExtOp Nat Nat) :=
  [.slot (.setAsUsed 1), .resize 5 3 (fun j => (j * 10, 0)), .slot (.writeKey 4 8),
    .resize 2 5 (fun j => (j * 10, 0))]

/-- The table `sampleExtOps` leads to from a fresh table with keys 5, 6, 7 and values
0, 1, 2. -/
def sampleExtResult : ExtStatusPolicy.Table Nat Nat :=
  ⟨⟨[(5, 0), (6, 1)]⟩, ⟨[false, true]⟩⟩

end TableWithStatus

/-! # Directed networks (`nets/DirNetExtras.H`) -/

namespace DirNetExtras

/-! ## Reading a directed network -/

/-- Number of values of `size_t`. -/
def sizeModulus : Nat := 2 ^ 64

/-- One successfully parsed input line: source index, destination index and edge data. -/
structure Line (D : Type) where
  source : Nat
  dest : Nat
  data : D
deriving DecidableEq, Repr

/-- The net under construction. The net type is a template argument of `readDirNet`, so the
embedding records what `readDirNet` does to it: the size given to its constructor and the
assignments `net[source][dest] = data` made, oldest first. -/
structure Net (D : Type) where
  size : Nat
  assignments : List (Nat × Nat × D)
deriving DecidableEq, Repr

/-- Source: `new NetType(nodeCount)`. -/
def Net.create {D : Type} (nodeCount : Nat) : Net D := ⟨nodeCount, []⟩

/-- Source: `net[source][dest] = data`. -/
def Net.assign {D : Type} (net : Net D) (source dest : Nat) (data : D) : Net D :=
  { net with assignments := net.assignments ++ [(source, dest, data)] }

/-- Source: "Track the maximum node index", the update of `nodeCount` for one line, in
`size_t` arithmetic. -/
def trackNodeCount (nodeCount source dest : Nat) : Nat :=
  let nodeCount1 := if source ≥ nodeCount then (source + 1) % sizeModulus else nodeCount
  if dest ≥ nodeCount1 then (dest + 1) % sizeModulus else nodeCount1

/-- Source: the reading loop of `readDirNet`, over the parsed lines: the final `nodeCount`.
The vectors `edgeSource`, `edgeDest`, `edgeData` it fills are the lines themselves, in
order. -/
def readNodeCount {D : Type} (lines : List (Line D)) : Nat :=
  lines.foldl (fun nodeCount l => trackNodeCount nodeCount l.source l.dest) 0

/-- Source: one round of the loop "Add edges to the net". `degrees` is `none` when no vector
was supplied. The result is `none` when `degrees->at(source)` is out of range. -/
def addEdge {D : Type} (st : Net D × Option (List Nat)) (l : Line D) :
    Option (Net D × Option (List Nat)) :=
  if l.source ≠ l.dest then
    match st.2 with
    | none => some (st.1.assign l.source l.dest l.data, none)
    | some degrees =>
      match degrees[l.source]? with
      | some d =>
        some (st.1.assign l.source l.dest l.data,
          some (degrees.set l.source ((d + 1) % sizeModulus)))
      | none => none
  else some st

/-- Source: the loop "Add edges to the net" over all lines. -/
def addEdges {D : Type} :
    Net D × Option (List Nat) → List (Line D) → Option (Net D × Option (List Nat))
  | st, [] => some st
  | st, l :: ls =>
    match addEdge st l with
    | some st1 => addEdges st1 ls
    | none => none

/-- Source: the loop "Make sure the degrees are up to date also for unidirectional edges",
over the node indices `is`; `nodeDegree net i` stands for `net(i).size()`. The result is
`none` when `degrees->at(i)` is out of range. -/
def fixDegrees {D : Type} (nodeDegree : Net D → Nat → Nat) (net : Net D) :
    List Nat → List Nat → Option (List Nat)
  | [], degrees => some degrees
  | i :: is, degrees =>
    match degrees[i]? with
    | some d =>
      fixDegrees nodeDegree net is
        (if d < nodeDegree net i then degrees.set i (nodeDegree net i) else degrees)
    | none => none

/-- Source: `readDirNet`, after the parsing of the input into lines. `wantDegrees` tells
whether a `degrees` vector was supplied; `nodeDegree net i` stands for `net(i).size()` of the
net type. The result is the net and, if asked for, the degrees; `none` when an `at` is out of
range. -/
def readDirNet {D : Type} (nodeDegree : Net D → Nat → Nat) (lines : List (Line D))
    (wantDegrees : Bool) : Option (Net D × Option (List Nat)) :=
  let nodeCount := readNodeCount lines
  let net : Net D := Net.create nodeCount
  let degrees : Option (List Nat) :=
    if wantDegrees then some (List.replicate nodeCount 0) else none
  match addEdges (net, degrees) lines with
  | none => none
  | some (net1, none) => some (net1, none)
  | some (net1, some degrees1) =>
    match fixDegrees nodeDegree net1 (List.range net1.size) degrees1 with
    | some degrees2 => some (net1, some degrees2)
    | none => none

/-! ## What the documentation of `readDirNet` promises -/

/-- All node indices occurring in the lines. -/
def nodeIndices {D : Type} (lines : List (Line D)) : List Nat :=
  lines.foldr (fun l acc => l.source :: l.dest :: acc) []

/-- The documented node count: 1 + the largest node index occurring in any line, and 0 when
there is no line. -/
def documentedNodeCount {D : Type} (lines : List (Line D)) : Nat :=
  match nodeIndices lines with
  | [] => 0
  | i :: is => 1 + is.foldl max i

/-- The documented assignments: one for every line whose source differs from its
destination, in input order. -/
def documentedAssignments {D : Type} (lines : List (Line D)) : List (Nat × Nat × D) :=
  (lines.filter (fun l => decide (l.source ≠ l.dest))).map (fun l => (l.source, l.dest, l.data))

/-- The documented degree of node `i`, the degree in the unweighted undirected network of the
input: the number of distinct nodes `j` other than `i` such that some line is `(i, j, _)` or
`(j, i, _)`, whatever its weight. -/
def undirectedDegree {D : Type} (lines : List (Line D)) (i : Nat) : Nat :=
  ((lines.filterMap (fun l =>
    if l.source = i ∧ l.dest ≠ i then some l.dest
    else if l.dest = i ∧ l.source ≠ i then some l.source
    else none)).dedup).length

/-- Two identical lines `0 1 3`: the edge from node 0 to node 1 with weight 3, listed twice. -/
def duplicateLines : List (Line Nat) := [⟨0, 1, 3⟩, ⟨0, 1, 3⟩]

/-- One line whose source index is the largest value of `size_t`, 2^64 - 1. -/
def overflowLines : List (Line Nat) := [⟨18446744073709551615, 0, 5⟩]

/-- Three lines: `0 2`, the self edge `1 1`, and `2 0`. -/
def sampleLines : List (Line Nat) := [⟨0, 2, 5⟩, ⟨1, 1, 7⟩, ⟨2, 0, 9⟩]

end DirNetExtras

namespace TableWithStatus

/-! ## Lemmas on the slot storage -/

namespace SlotStore

variable {K V : Type}

theorem capacity_create (size : Nat) (init : Nat → K × V) :
    (create size init).capacity = size := by
  simp [create, capacity]

theorem capacity_modifyKey (s : SlotStore K V) (i : Nat) (f : K → K) :
    (s.modifyKey i f).capacity = s.capacity := by
  unfold modifyKey capacity
  split <;> simp

/-- Slots of the storage after a write through the key reference of slot `i`. -/
theorem slots_modifyKey (s : SlotStore K V) (i j : Nat) (f : K → K) :
    (s.modifyKey i f).slots[j]? =
      if j = i then (s.slots[j]?).map (fun p => (f p.1, p.2)) else s.slots[j]? := by
  by_cases hji : j = i
  · subst hji
    cases h : s.slots[j]? with
    | none => simp [modifyKey, h]
    | some p =>
      have hj : j < s.slots.length := (List.getElem?_eq_some_iff.mp h).1
      simp [modifyKey, h, List.getElem?_set, hj]
  · unfold modifyKey
    split
    · simp [List.getElem?_set, hji, Ne.symm hji]
    · simp [hji]

/-- Slots after the constructor loop `for (i = 0; i < m; ++i)` writing through the key
reference of each slot `i`. -/
theorem slots_foldl_modifyKey (f : K → K) (s : SlotStore K V) (m j : Nat) :
    ((List.range m).foldl (fun t i => t.modifyKey i f) s).slots[j]? =
      if j < m then (s.slots[j]?).map (fun p => (f p.1, p.2)) else s.slots[j]? := by
  induction m with
  | zero => simp
  | succ m ih =>
    rw [List.range_succ, List.foldl_append]
    simp only [List.foldl_cons, List.foldl_nil]
    rw [slots_modifyKey, ih]
    by_cases hjm : j = m
    · subst hjm
      simp
    · by_cases hlt : j < m
      · have : j < m + 1 := by omega
        simp [hjm, hlt, this]
      · have : ¬ j < m + 1 := by omega
        simp [hjm, hlt, this]

theorem slots_create (size : Nat) (init : Nat → K × V) (j : Nat) (h : j < size) :
    (create size init).slots[j]? = some (init j) := by
  simp [create, h]

theorem slots_resize (s : SlotStore K V) (newSize oldSize : Nat) (fill : Nat → K × V) (j : Nat)
    (h : j < newSize) :
    (s.resize newSize oldSize fill).slots[j]? =
      some (if j < oldSize then (s.slots[j]?).getD (fill j) else fill j) := by
  simp [resize, h]

theorem capacity_foldl_modifyKey (f : K → K) (s : SlotStore K V) (m : Nat) :
    ((List.range m).foldl (fun t i => t.modifyKey i f) s).capacity = s.capacity := by
  induction m with
  | zero => simp
  | succ m ih =>
    rw [List.range_succ, List.foldl_append]
    simp only [List.foldl_cons, List.foldl_nil]
    rw [capacity_modifyKey, ih]

theorem slots_of_lt_capacity (s : SlotStore K V) (i : Nat) (h : i < s.capacity) :
    ∃ p, s.slots[i]? = some p :=
  ⟨s.slots[i], List.getElem?_eq_getElem h⟩

theorem constRefToKey_modifyKey (s : SlotStore K V) (i j : Nat) (f : K → K) :
    (s.modifyKey i f).constRefToKey j =
      if j = i then (s.constRefToKey j).map f else s.constRefToKey j := by
  unfold constRefToKey
  rw [slots_modifyKey]
  split <;> simp [Option.map_map, Function.comp_def]

theorem valueAt_modifyKey (s : SlotStore K V) (i j : Nat) (f : K → K) :
    (s.modifyKey i f).valueAt j = s.valueAt j := by
  unfold valueAt
  rw [slots_modifyKey]
  split <;> simp [Option.map_map, Function.comp_def]

theorem slots_copyElemTo_loc (s dest : SlotStore K V) (loc i : Nat) (p : K × V)
    (hp : s.slots[i]? = some p) (hloc : loc < dest.capacity) :
    (s.copyElemTo dest loc i).slots[loc]? = some p := by
  unfold capacity at hloc
  simp [copyElemTo, hp, List.getElem?_set, hloc]

theorem slots_copyElemTo_other (s dest : SlotStore K V) (loc i j : Nat) (h : j ≠ loc) :
    (s.copyElemTo dest loc i).slots[j]? = dest.slots[j]? := by
  unfold copyElemTo
  split
  · simp [List.getElem?_set, Ne.symm h]
  · rfl

theorem modifyKey_modifyKey (s : SlotStore K V) (i : Nat) (f g : K → K) :
    (s.modifyKey i f).modifyKey i g = s.modifyKey i (fun k => g (f k)) := by
  cases h : s.slots[i]? with
  | none => simp [modifyKey, h]
  | some p =>
    have hi : i < s.slots.length := (List.getElem?_eq_some_iff.mp h).1
    simp [modifyKey, h, List.getElem?_set, hi, List.set_set]

theorem constRefToKey_of_lt_capacity (s : SlotStore K V) (i : Nat) (h : i < s.capacity) :
    ∃ k, s.constRefToKey i = some k := by
  obtain ⟨p, hp⟩ := slots_of_lt_capacity s i h
  exact ⟨p.1, by simp [constRefToKey, hp]⟩

end SlotStore

namespace StatusArray

theorem get_set (a : StatusArray) (i j : Nat) (b : Bool) :
    (a.set i b).get j = if j = i then (a.get j).map (fun _ => b) else a.get j := by
  unfold get set
  by_cases hji : j = i
  · subst hji
    by_cases hj : j < a.bits.length
    · simp [List.getElem?_set, hj]
    · have hnone : a.bits[j]? = none := List.getElem?_eq_none (by omega)
      simp [List.getElem?_set, hj, hnone]
  · simp [List.getElem?_set, hji, Ne.symm hji]

theorem get_of_lt (a : StatusArray) (i : Nat) (h : i < a.bits.length) :
    ∃ b, a.get i = some b :=
  ⟨a.bits[i], List.getElem?_eq_getElem h⟩

theorem set_set (a : StatusArray) (i : Nat) (b c : Bool) :
    (a.set i b).set i c = a.set i c := by
  simp [set]

end StatusArray

namespace Implicit

variable {K V : Type} [DecidableEq K]

theorem implicit_isUsed_setAsEmpty (m : K) (t : Table K V) (i j : Nat) :
    isUsed m (setAsEmpty m t i) j =
      if j = i then (isUsed m t j).map (fun _ => false) else isUsed m t j := by
  unfold isUsed setAsEmpty
  rw [SlotStore.constRefToKey_modifyKey]
  split <;> simp [Option.map_map, Function.comp_def]

theorem implicit_isUsed_refToKeyAssign (m : K) (t : Table K V) (i j : Nat) (k : K) :
    isUsed m (refToKeyAssign t i k) j =
      if j = i then (isUsed m t j).map (fun _ => k != m) else isUsed m t j := by
  unfold isUsed refToKeyAssign
  rw [SlotStore.constRefToKey_modifyKey]
  split <;> simp [Option.map_map, Function.comp_def]

theorem implicit_isUsed_of_lt_capacity (m : K) (t : Table K V) (i : Nat) (h : i < t.capacity) :
    ∃ b, isUsed m t i = some b := by
  obtain ⟨k, hk⟩ := SlotStore.constRefToKey_of_lt_capacity t i h
  exact ⟨k != m, by simp [isUsed, hk]⟩

end Implicit

namespace ExtStatusPolicy

variable {K V : Type}

theorem ext_isUsed_setAsUsed (t : Table K V) (i j : Nat) :
    isUsed (setAsUsed t i) j =
      if j = i then (isUsed t j).map (fun _ => true) else isUsed t j := by
  unfold isUsed setAsUsed
  exact StatusArray.get_set t.status i j true

theorem ext_isUsed_setAsEmpty (t : Table K V) (i j : Nat) :
    isUsed (setAsEmpty t i) j =
      if j = i then (isUsed t j).map (fun _ => false) else isUsed t j := by
  unfold isUsed setAsEmpty
  exact StatusArray.get_set t.status i j false

theorem ext_isUsed_of_lt_capacity (t : Table K V) (hwf : WF t) (i : Nat) (h : i < capacity t) :
    ∃ b, isUsed t i = some b := by
  unfold WF at hwf
  unfold capacity at h
  exact StatusArray.get_of_lt t.status i (by omega)

end ExtStatusPolicy

namespace EmbStatusPolicy

variable {K V : Type}

theorem emb_isUsed_modifyKey (t : Table K V) (i j : Nat) (f : K × Bool → K × Bool) :
    isUsed (SlotStore.modifyKey t i f) j =
      if j = i then (SlotStore.constRefToKey t j).map (fun p => (f p).2 == true)
      else isUsed t j := by
  unfold isUsed
  rw [SlotStore.constRefToKey_modifyKey]
  split <;> simp [Option.map_map, Function.comp_def]

theorem emb_constRefToKey_modifyKey (t : Table K V) (i j : Nat) (f : K × Bool → K × Bool) :
    constRefToKey (SlotStore.modifyKey t i f) j =
      if j = i then (SlotStore.constRefToKey t j).map (fun p => (f p).1)
      else constRefToKey t j := by
  unfold constRefToKey
  rw [SlotStore.constRefToKey_modifyKey]
  split <;> simp [Option.map_map, Function.comp_def]

theorem emb_isUsed_of_lt_capacity (t : Table K V) (i : Nat) (h : i < t.capacity) :
    ∃ b, isUsed t i = some b := by
  obtain ⟨p, hp⟩ := SlotStore.constRefToKey_of_lt_capacity t i h
  exact ⟨p.2 == true, by simp [isUsed, hp]⟩

end EmbStatusPolicy

/-- Slots of a freshly constructed embedded table: the flag of every slot is false, the key and
the value are whatever the fresh storage held. -/
theorem EmbStatusPolicy.emb_slots_create {K V : Type} (n : Nat) (init : Nat → (K × Bool) × V)
    (j : Nat) (h : j < n) :
    (EmbStatusPolicy.create n init).slots[j]? = some (((init j).1.1, false), (init j).2) := by
  unfold EmbStatusPolicy.create EmbStatusPolicy.setAsEmpty
  rw [SlotStore.slots_foldl_modifyKey, SlotStore.slots_create n init j h]
  simp [h]

theorem EmbStatusPolicy.emb_capacity_run {K V : Type} (ops : List (SlotOp K)) :
    ∀ t : EmbStatusPolicy.Table K V, (EmbStatusPolicy.run t ops).capacity = t.capacity := by
  induction ops with
  | nil => exact fun t => rfl
  | cons op ops ih =>
    intro t
    have hstep : (EmbStatusPolicy.applyOp t op).capacity = t.capacity := by
      cases op <;> exact SlotStore.capacity_modifyKey t _ _
    exact (ih (EmbStatusPolicy.applyOp t op)).trans hstep

/-! ## Effect of one operation on the reads of a slot -/

theorem ExtStatusPolicy.ext_key_refToKeyAssign {K V : Type} (t : ExtStatusPolicy.Table K V)
    (i j : Nat) (k : K) :
    ExtStatusPolicy.constRefToKey (ExtStatusPolicy.refToKeyAssign t i k) j =
      if j = i then (ExtStatusPolicy.constRefToKey t j).map (fun _ => k)
      else ExtStatusPolicy.constRefToKey t j := by
  unfold ExtStatusPolicy.constRefToKey ExtStatusPolicy.refToKeyAssign
  exact SlotStore.constRefToKey_modifyKey t.store i j _

theorem EmbStatusPolicy.emb_isUsed_setAsUsed {K V : Type} (t : EmbStatusPolicy.Table K V)
    (i j : Nat) :
    EmbStatusPolicy.isUsed (EmbStatusPolicy.setAsUsed t i) j =
      if j = i then (EmbStatusPolicy.isUsed t j).map (fun _ => true)
      else EmbStatusPolicy.isUsed t j := by
  unfold EmbStatusPolicy.setAsUsed
  rw [EmbStatusPolicy.emb_isUsed_modifyKey]
  split <;> simp [EmbStatusPolicy.isUsed, Option.map_map, Function.comp_def]

theorem EmbStatusPolicy.emb_isUsed_setAsEmpty {K V : Type} (t : EmbStatusPolicy.Table K V)
    (i j : Nat) :
    EmbStatusPolicy.isUsed (EmbStatusPolicy.setAsEmpty t i) j =
      if j = i then (EmbStatusPolicy.isUsed t j).map (fun _ => false)
      else EmbStatusPolicy.isUsed t j := by
  unfold EmbStatusPolicy.setAsEmpty
  rw [EmbStatusPolicy.emb_isUsed_modifyKey]
  split <;> simp [EmbStatusPolicy.isUsed, Option.map_map, Function.comp_def]

theorem EmbStatusPolicy.emb_isUsed_refToKeyAssign {K V : Type} (t : EmbStatusPolicy.Table K V)
    (i j : Nat) (k : K) :
    EmbStatusPolicy.isUsed (EmbStatusPolicy.refToKeyAssign t i k) j
      = EmbStatusPolicy.isUsed t j := by
  unfold EmbStatusPolicy.refToKeyAssign
  rw [EmbStatusPolicy.emb_isUsed_modifyKey]
  split <;> simp [EmbStatusPolicy.isUsed]

theorem EmbStatusPolicy.emb_key_setAsUsed {K V : Type} (t : EmbStatusPolicy.Table K V)
    (i j : Nat) :
    EmbStatusPolicy.constRefToKey (EmbStatusPolicy.setAsUsed t i) j
      = EmbStatusPolicy.constRefToKey t j := by
  unfold EmbStatusPolicy.setAsUsed
  rw [EmbStatusPolicy.emb_constRefToKey_modifyKey]
  split <;> simp [EmbStatusPolicy.constRefToKey]

theorem EmbStatusPolicy.emb_key_setAsEmpty {K V : Type} (t : EmbStatusPolicy.Table K V)
    (i j : Nat) :
    EmbStatusPolicy.constRefToKey (EmbStatusPolicy.setAsEmpty t i) j
      = EmbStatusPolicy.constRefToKey t j := by
  unfold EmbStatusPolicy.setAsEmpty
  rw [EmbStatusPolicy.emb_constRefToKey_modifyKey]
  split <;> simp [EmbStatusPolicy.constRefToKey]

theorem EmbStatusPolicy.emb_key_refToKeyAssign {K V : Type} (t : EmbStatusPolicy.Table K V)
    (i j : Nat) (k : K) :
    EmbStatusPolicy.constRefToKey (EmbStatusPolicy.refToKeyAssign t i k) j =
      if j = i then (EmbStatusPolicy.constRefToKey t j).map (fun _ => k)
      else EmbStatusPolicy.constRefToKey t j := by
  unfold EmbStatusPolicy.refToKeyAssign
  rw [EmbStatusPolicy.emb_constRefToKey_modifyKey]
  split <;> simp [EmbStatusPolicy.constRefToKey, Option.map_map, Function.comp_def]

/-- One slot operation keeps an external and an embedded table in agreement at slot `j`. -/
theorem ext_emb_applyOp_agree {K V : Type} (ext : ExtStatusPolicy.Table K V)
    (emb : EmbStatusPolicy.Table K V) (op : SlotOp K) (j : Nat)
    (hu : ExtStatusPolicy.isUsed ext j = EmbStatusPolicy.isUsed emb j)
    (hk : ExtStatusPolicy.constRefToKey ext j = EmbStatusPolicy.constRefToKey emb j) :
    ExtStatusPolicy.isUsed (ExtStatusPolicy.applyOp ext op) j
        = EmbStatusPolicy.isUsed (EmbStatusPolicy.applyOp emb op) j ∧
      ExtStatusPolicy.constRefToKey (ExtStatusPolicy.applyOp ext op) j
        = EmbStatusPolicy.constRefToKey (EmbStatusPolicy.applyOp emb op) j := by
  cases op with
  | writeKey i k =>
    refine ⟨?_, ?_⟩
    · rw [ExtStatusPolicy.applyOp, EmbStatusPolicy.applyOp,
        EmbStatusPolicy.emb_isUsed_refToKeyAssign]
      exact hu
    · rw [ExtStatusPolicy.applyOp, EmbStatusPolicy.applyOp,
        ExtStatusPolicy.ext_key_refToKeyAssign, EmbStatusPolicy.emb_key_refToKeyAssign, hk]
  | setAsUsed i =>
    refine ⟨?_, ?_⟩
    · rw [ExtStatusPolicy.applyOp, EmbStatusPolicy.applyOp, ExtStatusPolicy.ext_isUsed_setAsUsed,
        EmbStatusPolicy.emb_isUsed_setAsUsed, hu]
    · rw [ExtStatusPolicy.applyOp, EmbStatusPolicy.applyOp, EmbStatusPolicy.emb_key_setAsUsed]
      exact hk
  | setAsEmpty i =>
    refine ⟨?_, ?_⟩
    · rw [ExtStatusPolicy.applyOp, EmbStatusPolicy.applyOp,
        ExtStatusPolicy.ext_isUsed_setAsEmpty, EmbStatusPolicy.emb_isUsed_setAsEmpty, hu]
    · rw [ExtStatusPolicy.applyOp, EmbStatusPolicy.applyOp, EmbStatusPolicy.emb_key_setAsEmpty]
      exact hk

/-- A sequence of slot operations keeps an external and an embedded table in agreement at
slot `j`. -/
theorem ext_emb_run_agree {K V : Type} (ops : List (SlotOp K)) (j : Nat) :
    ∀ (ext : ExtStatusPolicy.Table K V) (emb : EmbStatusPolicy.Table K V),
      ExtStatusPolicy.isUsed ext j = EmbStatusPolicy.isUsed emb j →
      ExtStatusPolicy.constRefToKey ext j = EmbStatusPolicy.constRefToKey emb j →
      ExtStatusPolicy.isUsed (ExtStatusPolicy.run ext ops) j
          = EmbStatusPolicy.isUsed (EmbStatusPolicy.run emb ops) j ∧
        ExtStatusPolicy.constRefToKey (ExtStatusPolicy.run ext ops) j
          = EmbStatusPolicy.constRefToKey (EmbStatusPolicy.run emb ops) j := by
  induction ops with
  | nil => exact fun ext emb hu hk => ⟨hu, hk⟩
  | cons op ops ih =>
    intro ext emb hu hk
    obtain ⟨hu1, hk1⟩ := ext_emb_applyOp_agree ext emb op j hu hk
    exact ih (ExtStatusPolicy.applyOp ext op) (EmbStatusPolicy.applyOp emb op) hu1 hk1

/-! ## The status array stays as long as the slot storage -/

theorem ExtStatusPolicy.ext_WF_create {K V : Type} (n : Nat) (init : Nat → K × V) :
    ExtStatusPolicy.WF (ExtStatusPolicy.create n init) := by
  simp [ExtStatusPolicy.WF, ExtStatusPolicy.create, StatusArray.create, SlotStore.create,
    SlotStore.capacity]

theorem ExtStatusPolicy.ext_WF_applyOp {K V : Type} (t : ExtStatusPolicy.Table K V)
    (op : SlotOp K) (h : ExtStatusPolicy.WF t) :
    ExtStatusPolicy.WF (ExtStatusPolicy.applyOp t op) := by
  unfold ExtStatusPolicy.WF at h ⊢
  cases op with
  | writeKey i k =>
    simp only [ExtStatusPolicy.applyOp, ExtStatusPolicy.refToKeyAssign,
      SlotStore.capacity_modifyKey]
    exact h
  | setAsUsed i =>
    simp only [ExtStatusPolicy.applyOp, ExtStatusPolicy.setAsUsed, StatusArray.set,
      List.length_set]
    exact h
  | setAsEmpty i =>
    simp only [ExtStatusPolicy.applyOp, ExtStatusPolicy.setAsEmpty, StatusArray.set,
      List.length_set]
    exact h

theorem ExtStatusPolicy.ext_lengths_resize {K V : Type} (t : ExtStatusPolicy.Table K V)
    (newSize oldSize : Nat) (fill : Nat → K × V) :
    (ExtStatusPolicy.resize t newSize oldSize fill).status.bits.length = newSize ∧
      (ExtStatusPolicy.resize t newSize oldSize fill).store.capacity = newSize := by
  simp [ExtStatusPolicy.resize, StatusArray.resize, SlotStore.resize, SlotStore.capacity]

theorem ExtOp.WF_apply {K V : Type} (t : ExtStatusPolicy.Table K V) (op : ExtOp K V)
    (h : ExtStatusPolicy.WF t) : ExtStatusPolicy.WF (ExtOp.apply t op) := by
  cases op with
  | slot op => exact ExtStatusPolicy.ext_WF_applyOp t op h
  | resize newSize oldSize fill =>
    have hl := ExtStatusPolicy.ext_lengths_resize t newSize oldSize fill
    unfold ExtStatusPolicy.WF
    simp only [ExtOp.apply]
    omega

theorem ExtOp.WF_runChecked {K V : Type} (ops : List (ExtOp K V)) :
    ∀ t r : ExtStatusPolicy.Table K V, ExtStatusPolicy.WF t →
      ExtOp.runChecked t ops = some r → ExtStatusPolicy.WF r := by
  induction ops with
  | nil =>
    intro t r h hr
    simp only [ExtOp.runChecked, Option.some.injEq] at hr
    exact hr ▸ h
  | cons op ops ih =>
    intro t r h hr
    by_cases hadm : ExtOp.admissible t op = true
    · simp only [ExtOp.runChecked, hadm, if_true] at hr
      exact ih (ExtOp.apply t op) r (ExtOp.WF_apply t op h) hr
    · simp [ExtOp.runChecked, hadm] at hr

/-! ## The implicit and the external table under the caller discipline -/

/-- One step of the discipline keeps an implicit and an external table in agreement at
slot `j`. -/
theorem agreeAt_step {K V : Type} [DecidableEq K] (m : K) (n j : Nat)
    (imp : Implicit.Table K V) (ext : ExtStatusPolicy.Table K V) (st : CallerStep K)
    (hok : CallerStep.ok m n st) (h : AgreeAt m j imp ext) :
    AgreeAt m j (Implicit.step m imp st) (ExtStatusPolicy.step ext st) := by
  obtain ⟨hu, ⟨b, hb⟩, ⟨k0, hk0⟩, hkey⟩ := h
  have himp : Implicit.isUsed m imp j = some b := hu.trans hb
  obtain ⟨ki, hki⟩ : ∃ ki, SlotStore.constRefToKey imp j = some ki := by
    unfold Implicit.isUsed at himp
    cases hc : SlotStore.constRefToKey imp j with
    | none => simp [hc] at himp
    | some ki => exact ⟨ki, rfl⟩
  cases st with
  | insert i k =>
    have hk : k ≠ m := hok.2
    have hne : (k != m) = true := by simp [hk]
    by_cases hji : j = i
    · subst hji
      have e1 : Implicit.isUsed m (Implicit.step m imp (.insert j k)) j = some true := by
        simp [Implicit.step, Implicit.setAsUsed, Implicit.implicit_isUsed_refToKeyAssign, himp,
          hne]
      have e2 : ExtStatusPolicy.isUsed (ExtStatusPolicy.step ext (.insert j k)) j
          = some true := by
        have : ExtStatusPolicy.isUsed (ExtStatusPolicy.refToKeyAssign ext j k) j = some b := hb
        simp [ExtStatusPolicy.step, ExtStatusPolicy.ext_isUsed_setAsUsed, this]
      have e3 : SlotStore.constRefToKey (Implicit.step m imp (.insert j k)) j = some k := by
        simp [Implicit.step, Implicit.setAsUsed, Implicit.refToKeyAssign,
          SlotStore.constRefToKey_modifyKey, hki]
      have e4 : ExtStatusPolicy.constRefToKey (ExtStatusPolicy.step ext (.insert j k)) j
          = some k := by
        have : ExtStatusPolicy.constRefToKey
            (ExtStatusPolicy.setAsUsed (ExtStatusPolicy.refToKeyAssign ext j k) j) j
            = ExtStatusPolicy.constRefToKey (ExtStatusPolicy.refToKeyAssign ext j k) j := rfl
        simp [ExtStatusPolicy.step, this, ExtStatusPolicy.ext_key_refToKeyAssign, hk0]
      exact ⟨e1.trans e2.symm, ⟨true, e2⟩, ⟨k, e4⟩, fun _ => e3.trans e4.symm⟩
    · have e1 : Implicit.isUsed m (Implicit.step m imp (.insert i k)) j
          = Implicit.isUsed m imp j := by
        simp [Implicit.step, Implicit.setAsUsed, Implicit.implicit_isUsed_refToKeyAssign, hji]
      have e2 : ExtStatusPolicy.isUsed (ExtStatusPolicy.step ext (.insert i k)) j
          = ExtStatusPolicy.isUsed ext j := by
        have : ExtStatusPolicy.isUsed (ExtStatusPolicy.refToKeyAssign ext i k) j
            = ExtStatusPolicy.isUsed ext j := rfl
        simp [ExtStatusPolicy.step, ExtStatusPolicy.ext_isUsed_setAsUsed, hji, this]
      have e3 : SlotStore.constRefToKey (Implicit.step m imp (.insert i k)) j
          = SlotStore.constRefToKey imp j := by
        simp [Implicit.step, Implicit.setAsUsed, Implicit.refToKeyAssign,
          SlotStore.constRefToKey_modifyKey, hji]
      have e4 : ExtStatusPolicy.constRefToKey (ExtStatusPolicy.step ext (.insert i k)) j
          = ExtStatusPolicy.constRefToKey ext j := by
        have : ExtStatusPolicy.constRefToKey
            (ExtStatusPolicy.setAsUsed (ExtStatusPolicy.refToKeyAssign ext i k) i) j
            = ExtStatusPolicy.constRefToKey (ExtStatusPolicy.refToKeyAssign ext i k) j := rfl
        simp [ExtStatusPolicy.step, this, ExtStatusPolicy.ext_key_refToKeyAssign, hji]
      refine ⟨by rw [e1, e2]; exact hu, ⟨b, by rw [e2]; exact hb⟩, ⟨k0, by rw [e4]; exact hk0⟩,
        fun hused => ?_⟩
      rw [e3, e4]
      exact hkey (by rw [← e2]; exact hused)
  | erase i =>
    have e4 : ExtStatusPolicy.constRefToKey (ExtStatusPolicy.step ext (.erase i)) j
        = ExtStatusPolicy.constRefToKey ext j := rfl
    by_cases hji : j = i
    · subst hji
      have e1 : Implicit.isUsed m (Implicit.step m imp (.erase j)) j = some false := by
        simp [Implicit.step, Implicit.implicit_isUsed_setAsEmpty, himp]
      have e2 : ExtStatusPolicy.isUsed (ExtStatusPolicy.step ext (.erase j)) j
          = some false := by
        simp [ExtStatusPolicy.step, ExtStatusPolicy.ext_isUsed_setAsEmpty, hb]
      refine ⟨e1.trans e2.symm, ⟨false, e2⟩, ⟨k0, by rw [e4]; exact hk0⟩, fun hused => ?_⟩
      rw [e2] at hused
      cases hused
    · have e1 : Implicit.isUsed m (Implicit.step m imp (.erase i)) j
          = Implicit.isUsed m imp j := by
        simp [Implicit.step, Implicit.implicit_isUsed_setAsEmpty, hji]
      have e2 : ExtStatusPolicy.isUsed (ExtStatusPolicy.step ext (.erase i)) j
          = ExtStatusPolicy.isUsed ext j := by
        simp [ExtStatusPolicy.step, ExtStatusPolicy.ext_isUsed_setAsEmpty, hji]
      have e3 : SlotStore.constRefToKey (Implicit.step m imp (.erase i)) j
          = SlotStore.constRefToKey imp j := by
        simp [Implicit.step, Implicit.setAsEmpty, SlotStore.constRefToKey_modifyKey, hji]
      refine ⟨by rw [e1, e2]; exact hu, ⟨b, by rw [e2]; exact hb⟩, ⟨k0, by rw [e4]; exact hk0⟩,
        fun hused => ?_⟩
      rw [e3, e4]
      exact hkey (by rw [← e2]; exact hused)

/-- A sequence of steps of the discipline keeps an implicit and an external table in agreement
at slot `j`. -/
theorem agreeAt_runSteps {K V : Type} [DecidableEq K] (m : K) (n j : Nat)
    (steps : List (CallerStep K)) :
    ∀ (imp : Implicit.Table K V) (ext : ExtStatusPolicy.Table K V),
      (∀ st ∈ steps, CallerStep.ok m n st) → AgreeAt m j imp ext →
      AgreeAt m j (Implicit.runSteps m imp steps) (ExtStatusPolicy.runSteps ext steps) := by
  induction steps with
  | nil => exact fun imp ext _ h => h
  | cons st steps ih =>
    intro imp ext hok h
    have hst : CallerStep.ok m n st := hok st (List.mem_cons_self st steps)
    have hrest : ∀ s ∈ steps, CallerStep.ok m n s :=
      fun s hs => hok s (List.mem_cons_of_mem st hs)
    exact ih (Implicit.step m imp st) (ExtStatusPolicy.step ext st) hrest
      (agreeAt_step m n j imp ext st hst h)

theorem agreeAt_create {K V : Type} [DecidableEq K] (m : K) (n j : Nat) (hj : j < n)
    (initI initE : Nat → K × V) :
    AgreeAt m j (Implicit.create m n initI) (ExtStatusPolicy.create n initE) := by
  have hslot : (Implicit.create m n initI).slots[j]? = some (m, (initI j).2) := by
    unfold Implicit.create Implicit.setAsEmpty
    rw [SlotStore.slots_foldl_modifyKey, SlotStore.slots_create n initI j hj]
    simp [hj]
  have hu : ExtStatusPolicy.isUsed (ExtStatusPolicy.create n initE) j = some false := by
    simp [ExtStatusPolicy.create, ExtStatusPolicy.isUsed, StatusArray.create, StatusArray.get,
      hj]
  refine ⟨?_, ⟨false, hu⟩, ⟨(initE j).1, ?_⟩, fun hused => ?_⟩
  · rw [hu]
    simp [Implicit.isUsed, SlotStore.constRefToKey, hslot]
  · simp [ExtStatusPolicy.constRefToKey, ExtStatusPolicy.create, SlotStore.constRefToKey,
      SlotStore.create, hj]
  · rw [hu] at hused
    cases hused

/-- Slots of a freshly constructed implicit table: every key is the sentinel, the value is
whatever the fresh storage held. -/
theorem Implicit.implicit_slots_create {K V : Type} [DecidableEq K] (m : K) (n : Nat)
    (init : Nat → K × V) (j : Nat) (h : j < n) :
    (Implicit.create m n init).slots[j]? = some (m, (init j).2) := by
  unfold Implicit.create Implicit.setAsEmpty
  rw [SlotStore.slots_foldl_modifyKey, SlotStore.slots_create n init j h]
  simp [h]

/-! ## Fresh construction -/

/-- C1: a table constructed with size `n` has capacity `n` and, under each of the three
strategies and whatever the fresh storage holds, `isUsed(i)` is false for every `i < n`. -/
theorem fresh_construction_all_unused {K V : Type} [DecidableEq K] (magicEmptyKey : K)
    (n i : Nat) (h : i < n) :
    (∀ init : Nat → K × V,
      (Implicit.create magicEmptyKey n init).capacity = n ∧
      Implicit.isUsed magicEmptyKey (Implicit.create magicEmptyKey n init) i = some false) ∧
    (∀ init : Nat → K × V,
      ExtStatusPolicy.capacity (ExtStatusPolicy.create n init) = n ∧
      ExtStatusPolicy.isUsed (ExtStatusPolicy.create n init) i = some false) ∧
    (∀ init : Nat → (K × Bool) × V,
      (EmbStatusPolicy.create n init).capacity = n ∧
      EmbStatusPolicy.isUsed (EmbStatusPolicy.create n init) i = some false) := by
  refine ⟨fun init => ⟨?_, ?_⟩, fun init => ⟨?_, ?_⟩, fun init => ⟨?_, ?_⟩⟩
  · unfold Implicit.create Implicit.setAsEmpty
    rw [SlotStore.capacity_foldl_modifyKey, SlotStore.capacity_create]
  · unfold Implicit.isUsed Implicit.create Implicit.setAsEmpty SlotStore.constRefToKey
    rw [SlotStore.slots_foldl_modifyKey, SlotStore.slots_create n init i h]
    simp [h]
  · simp [ExtStatusPolicy.create, ExtStatusPolicy.capacity, SlotStore.capacity_create]
  · simp [ExtStatusPolicy.create, ExtStatusPolicy.isUsed, StatusArray.create, StatusArray.get, h]
  · unfold EmbStatusPolicy.create EmbStatusPolicy.setAsEmpty
    rw [SlotStore.capacity_foldl_modifyKey, SlotStore.capacity_create]
  · unfold EmbStatusPolicy.isUsed EmbStatusPolicy.create EmbStatusPolicy.setAsEmpty
      SlotStore.constRefToKey
    rw [SlotStore.slots_foldl_modifyKey, SlotStore.slots_create n init i h]
    simp [h]

/-- Instance of C1: capacity 3, index 1, 0 as the sentinel, fresh keys 5, 6, 7. -/
theorem fresh_construction_all_unused_witness :
    (1 < 3) ∧
    Implicit.isUsed (0 : Nat) (Implicit.create 0 3 (fun j => (j + 5, ()))) 1 = some false ∧
    ExtStatusPolicy.isUsed (ExtStatusPolicy.create 3 (fun j => (j + 5, ()))) 1 = some false ∧
    EmbStatusPolicy.isUsed (EmbStatusPolicy.create 3 (fun j => ((j + 5, true), ()))) 1
      = some false :=
  have h := fresh_construction_all_unused (K := Nat) (V := Unit) 0 3 1 (by decide)
  ⟨by decide, (h.1 _).2, (h.2.1 _).2, (h.2.2 _).2⟩

/-! ## Toggling one slot -/

/-- Counterexample to C2 as stated: under the implicit strategy a slot holding the sentinel
still reads as unused right after `setAsUsed`. Capacity 1, sentinel 0, index 0. -/
theorem toggle_implicit_setAsUsed_counterexample :
    0 < (Implicit.create (0 : Nat) 1 (fun _ => (7, ()))).capacity ∧
    Implicit.isUsed (0 : Nat)
      (Implicit.setAsUsed (Implicit.create (0 : Nat) 1 (fun _ => (7, ()))) 0) 0 = some false := by
  decide

/-- C2 (amended): for every table state and `i < capacity`, under External and Embedded
`isUsed(i)` is true right after `setAsUsed(i)`; under all three strategies `isUsed(i)` is false
right after `setAsEmpty(i)`; under Implicit `setAsUsed(i)` leaves `isUsed(i)` as it was. -/
theorem toggle_correctness {K V : Type} [DecidableEq K] (magicEmptyKey : K) :
    (∀ (t : ExtStatusPolicy.Table K V) (i : Nat), ExtStatusPolicy.WF t →
        i < ExtStatusPolicy.capacity t →
      ExtStatusPolicy.isUsed (ExtStatusPolicy.setAsUsed t i) i = some true ∧
      ExtStatusPolicy.isUsed (ExtStatusPolicy.setAsEmpty t i) i = some false) ∧
    (∀ (t : EmbStatusPolicy.Table K V) (i : Nat), i < t.capacity →
      EmbStatusPolicy.isUsed (EmbStatusPolicy.setAsUsed t i) i = some true ∧
      EmbStatusPolicy.isUsed (EmbStatusPolicy.setAsEmpty t i) i = some false) ∧
    (∀ (t : Implicit.Table K V) (i : Nat), i < t.capacity →
      Implicit.isUsed magicEmptyKey (Implicit.setAsEmpty magicEmptyKey t i) i = some false ∧
      Implicit.isUsed magicEmptyKey (Implicit.setAsUsed t i) i
        = Implicit.isUsed magicEmptyKey t i) := by
  refine ⟨fun t i hwf hi => ?_, fun t i hi => ?_, fun t i hi => ?_⟩
  · obtain ⟨b, hb⟩ := ExtStatusPolicy.ext_isUsed_of_lt_capacity t hwf i hi
    simp [ExtStatusPolicy.ext_isUsed_setAsUsed, ExtStatusPolicy.ext_isUsed_setAsEmpty, hb]
  · obtain ⟨p, hp⟩ := SlotStore.constRefToKey_of_lt_capacity t i hi
    simp [EmbStatusPolicy.setAsUsed, EmbStatusPolicy.setAsEmpty,
      EmbStatusPolicy.emb_isUsed_modifyKey, hp]
  · obtain ⟨b, hb⟩ := Implicit.implicit_isUsed_of_lt_capacity magicEmptyKey t i hi
    simp [Implicit.implicit_isUsed_setAsEmpty, Implicit.setAsUsed, hb]

/-- Instance of C2 (amended): capacity 2, index 1, sentinel 0. -/
theorem toggle_correctness_witness :
    (ExtStatusPolicy.WF (ExtStatusPolicy.create 2 (fun j => (j, ()))) ∧
      1 < ExtStatusPolicy.capacity (ExtStatusPolicy.create 2 (fun j => (j, ())))) ∧
    (ExtStatusPolicy.isUsed (ExtStatusPolicy.setAsUsed
        (ExtStatusPolicy.create 2 (fun j => (j, ()))) 1) 1 = some true ∧
      ExtStatusPolicy.isUsed (ExtStatusPolicy.setAsEmpty
        (ExtStatusPolicy.create 2 (fun j => (j, ()))) 1) 1 = some false) ∧
    (EmbStatusPolicy.isUsed (EmbStatusPolicy.setAsUsed
        (EmbStatusPolicy.create 2 (fun j => ((j, true), ()))) 1) 1 = some true ∧
      EmbStatusPolicy.isUsed (EmbStatusPolicy.setAsEmpty
        (EmbStatusPolicy.create 2 (fun j => ((j, true), ()))) 1) 1 = some false) ∧
    (Implicit.isUsed (0 : Nat) (Implicit.setAsEmpty 0
        (SlotStore.create 2 (fun j => (j + 3, ()))) 1) 1 = some false ∧
      Implicit.isUsed (0 : Nat) (Implicit.setAsUsed
        (SlotStore.create 2 (fun j => (j + 3, ()))) 1) 1
        = Implicit.isUsed (0 : Nat) (SlotStore.create 2 (fun j => (j + 3, ()))) 1) :=
  have h := toggle_correctness (K := Nat) (V := Unit) 0
  ⟨⟨by decide, by decide⟩, h.1 _ 1 (by decide) (by decide), h.2.1 _ 1 (by decide),
    h.2.2 _ 1 (by decide)⟩

/-! ## Growth by `resize` -/

/-- C4: `copyElemTo(dest, loc, i)` from an occupied source slot `i` into slot `loc` of the
destination leaves `dest.isUsed(loc)` true and the key and value at `loc` equal to the source's
at `i`. Stated for the external variant, which defines `copyElemTo`, and for the implicit and
embedded variants, which inherit the one of the base table. -/
theorem relocation_correctness {K V : Type} [DecidableEq K] (magicEmptyKey : K) (loc i : Nat) :
    (∀ src dest : ExtStatusPolicy.Table K V,
      ExtStatusPolicy.WF src → ExtStatusPolicy.WF dest →
      i < ExtStatusPolicy.capacity src → ExtStatusPolicy.isUsed src i = some true →
      loc < ExtStatusPolicy.capacity dest →
      ExtStatusPolicy.isUsed (ExtStatusPolicy.copyElemTo src dest loc i) loc = some true ∧
      ∃ k v, ExtStatusPolicy.constRefToKey src i = some k ∧
        ExtStatusPolicy.valueAt src i = some v ∧
        ExtStatusPolicy.constRefToKey (ExtStatusPolicy.copyElemTo src dest loc i) loc = some k ∧
        ExtStatusPolicy.valueAt (ExtStatusPolicy.copyElemTo src dest loc i) loc = some v) ∧
    (∀ src dest : Implicit.Table K V,
      i < src.capacity → Implicit.isUsed magicEmptyKey src i = some true →
      loc < dest.capacity →
      Implicit.isUsed magicEmptyKey (Implicit.copyElemTo src dest loc i) loc = some true ∧
      ∃ k v, SlotStore.constRefToKey src i = some k ∧ SlotStore.valueAt src i = some v ∧
        Implicit.constRefToKey magicEmptyKey (Implicit.copyElemTo src dest loc i) loc
          = Except.ok k ∧
        SlotStore.valueAt (Implicit.copyElemTo src dest loc i) loc = some v) ∧
    (∀ src dest : EmbStatusPolicy.Table K V,
      i < src.capacity → EmbStatusPolicy.isUsed src i = some true →
      loc < dest.capacity →
      EmbStatusPolicy.isUsed (EmbStatusPolicy.copyElemTo src dest loc i) loc = some true ∧
      ∃ k v, EmbStatusPolicy.constRefToKey src i = some k ∧ SlotStore.valueAt src i = some v ∧
        EmbStatusPolicy.constRefToKey (EmbStatusPolicy.copyElemTo src dest loc i) loc = some k ∧
        SlotStore.valueAt (EmbStatusPolicy.copyElemTo src dest loc i) loc = some v) := by
  refine ⟨fun src dest _ hwd hi _ hloc => ?_, fun src dest hi hu hloc => ?_,
    fun src dest hi hu hloc => ?_⟩
  · unfold ExtStatusPolicy.capacity at hi hloc
    obtain ⟨p, hp⟩ := SlotStore.slots_of_lt_capacity src.store i hi
    have hcopy := SlotStore.slots_copyElemTo_loc src.store dest.store loc i p hp hloc
    unfold ExtStatusPolicy.WF at hwd
    have hb : loc < dest.status.bits.length := by omega
    refine ⟨?_, p.1, p.2, ?_, ?_, ?_, ?_⟩
    · simp [ExtStatusPolicy.isUsed, ExtStatusPolicy.copyElemTo, StatusArray.get, StatusArray.set,
        List.getElem?_set, hb]
    · simp [ExtStatusPolicy.constRefToKey, SlotStore.constRefToKey, hp]
    · simp [ExtStatusPolicy.valueAt, SlotStore.valueAt, hp]
    · simp [ExtStatusPolicy.constRefToKey, ExtStatusPolicy.copyElemTo, SlotStore.constRefToKey,
        hcopy]
    · simp [ExtStatusPolicy.valueAt, ExtStatusPolicy.copyElemTo, SlotStore.valueAt, hcopy]
  · obtain ⟨p, hp⟩ := SlotStore.slots_of_lt_capacity src i hi
    have hcopy := SlotStore.slots_copyElemTo_loc src dest loc i p hp hloc
    have hne : (p.1 != magicEmptyKey) = true := by
      simpa [Implicit.isUsed, SlotStore.constRefToKey, hp] using hu
    have hused : Implicit.isUsed magicEmptyKey (Implicit.copyElemTo src dest loc i) loc
        = some true := by
      simp only [Implicit.isUsed, Implicit.copyElemTo, SlotStore.constRefToKey, hcopy,
        Option.map_some', hne]
    refine ⟨hused, p.1, p.2, ?_, ?_, ?_, ?_⟩
    · simp [SlotStore.constRefToKey, hp]
    · simp [SlotStore.valueAt, hp]
    · simp only [Implicit.constRefToKey, hused]
      simp [Implicit.copyElemTo, SlotStore.constRefToKey, hcopy]
    · simp [Implicit.copyElemTo, SlotStore.valueAt, hcopy]
  · obtain ⟨p, hp⟩ := SlotStore.slots_of_lt_capacity src i hi
    have hcopy := SlotStore.slots_copyElemTo_loc src dest loc i p hp hloc
    have hflag : p.1.2 = true := by
      simpa [EmbStatusPolicy.isUsed, SlotStore.constRefToKey, hp] using hu
    refine ⟨?_, p.1.1, p.2, ?_, ?_, ?_, ?_⟩
    · simp [EmbStatusPolicy.isUsed, EmbStatusPolicy.copyElemTo, SlotStore.constRefToKey, hcopy,
        hflag]
    · simp [EmbStatusPolicy.constRefToKey, SlotStore.constRefToKey, hp]
    · simp [SlotStore.valueAt, hp]
    · simp [EmbStatusPolicy.constRefToKey, EmbStatusPolicy.copyElemTo, SlotStore.constRefToKey,
        hcopy]
    · simp [EmbStatusPolicy.copyElemTo, SlotStore.valueAt, hcopy]

/-- Instance of C4: slot 1 of the sample tables (key 11, value 21) is relocated to slot 2 of a
fresh table of capacity 4. -/
theorem relocation_correctness_witness :
    ((ExtStatusPolicy.WF sampleExt ∧ ExtStatusPolicy.WF freshExt ∧
        1 < ExtStatusPolicy.capacity sampleExt ∧ ExtStatusPolicy.isUsed sampleExt 1 = some true ∧
        2 < ExtStatusPolicy.capacity freshExt) ∧
      ExtStatusPolicy.isUsed (ExtStatusPolicy.copyElemTo sampleExt freshExt 2 1) 2 = some true ∧
      ∃ k v, ExtStatusPolicy.constRefToKey sampleExt 1 = some k ∧
        ExtStatusPolicy.valueAt sampleExt 1 = some v ∧
        ExtStatusPolicy.constRefToKey (ExtStatusPolicy.copyElemTo sampleExt freshExt 2 1) 2
          = some k ∧
        ExtStatusPolicy.valueAt (ExtStatusPolicy.copyElemTo sampleExt freshExt 2 1) 2
          = some v) ∧
    ((1 < sampleImplicit.capacity ∧ Implicit.isUsed 0 sampleImplicit 1 = some true ∧
        2 < freshImplicit.capacity) ∧
      Implicit.isUsed 0 (Implicit.copyElemTo sampleImplicit freshImplicit 2 1) 2 = some true ∧
      ∃ k v, SlotStore.constRefToKey sampleImplicit 1 = some k ∧
        SlotStore.valueAt sampleImplicit 1 = some v ∧
        Implicit.constRefToKey 0 (Implicit.copyElemTo sampleImplicit freshImplicit 2 1) 2
          = Except.ok k ∧
        SlotStore.valueAt (Implicit.copyElemTo sampleImplicit freshImplicit 2 1) 2 = some v) ∧
    ((1 < sampleEmb.capacity ∧ EmbStatusPolicy.isUsed sampleEmb 1 = some true ∧
        2 < freshEmb.capacity) ∧
      EmbStatusPolicy.isUsed (EmbStatusPolicy.copyElemTo sampleEmb freshEmb 2 1) 2 = some true ∧
      ∃ k v, EmbStatusPolicy.constRefToKey sampleEmb 1 = some k ∧
        SlotStore.valueAt sampleEmb 1 = some v ∧
        EmbStatusPolicy.constRefToKey (EmbStatusPolicy.copyElemTo sampleEmb freshEmb 2 1) 2
          = some k ∧
        SlotStore.valueAt (EmbStatusPolicy.copyElemTo sampleEmb freshEmb 2 1) 2 = some v) :=
  have h := relocation_correctness (K := Nat) (V := Nat) 0 2 1
  ⟨⟨by decide, h.1 sampleExt freshExt (by decide) (by decide) (by decide) (by decide)
      (by decide)⟩,
    ⟨by decide, h.2.1 sampleImplicit freshImplicit (by decide) (by decide) (by decide)⟩,
    ⟨by decide, h.2.2 sampleEmb freshEmb (by decide) (by decide) (by decide)⟩⟩

/-- C5: after `src.shallowMoveTo(dest)` on an external table, the destination holds the status
array and the slot storage of the source as they were before the move, both handed over
together; so for every `i` below the capacity `dest.isUsed(i)`, the key and the value at `i`
are the pre-move ones of the source. -/
theorem move_correctness {K V : Type} (src dest : ExtStatusPolicy.Table K V) (i : Nat)
    (hwf : ExtStatusPolicy.WF src) (hi : i < ExtStatusPolicy.capacity src) :
    ((ExtStatusPolicy.shallowMoveTo src dest).2.status = src.status ∧
      (ExtStatusPolicy.shallowMoveTo src dest).2.store = src.store) ∧
    ∃ b k v, ExtStatusPolicy.isUsed src i = some b ∧
      ExtStatusPolicy.constRefToKey src i = some k ∧
      ExtStatusPolicy.valueAt src i = some v ∧
      ExtStatusPolicy.isUsed (ExtStatusPolicy.shallowMoveTo src dest).2 i = some b ∧
      ExtStatusPolicy.constRefToKey (ExtStatusPolicy.shallowMoveTo src dest).2 i = some k ∧
      ExtStatusPolicy.valueAt (ExtStatusPolicy.shallowMoveTo src dest).2 i = some v := by
  have hmove : (ExtStatusPolicy.shallowMoveTo src dest).2 = src := by
    cases src with
    | mk store status =>
      cases store
      cases status
      rfl
  obtain ⟨b, hb⟩ := ExtStatusPolicy.ext_isUsed_of_lt_capacity src hwf i hi
  unfold ExtStatusPolicy.capacity at hi
  obtain ⟨p, hp⟩ := SlotStore.slots_of_lt_capacity src.store i hi
  rw [hmove]
  refine ⟨⟨rfl, rfl⟩, b, p.1, p.2, hb, ?_, ?_, hb, ?_, ?_⟩ <;>
    simp [ExtStatusPolicy.constRefToKey, ExtStatusPolicy.valueAt, SlotStore.constRefToKey,
      SlotStore.valueAt, hp]

/-- Instance of C5: the sample external table is moved into a fresh table of capacity 4. -/
theorem move_correctness_witness :
    (ExtStatusPolicy.WF sampleExt ∧ 1 < ExtStatusPolicy.capacity sampleExt) ∧
    ((ExtStatusPolicy.shallowMoveTo sampleExt freshExt).2.status = sampleExt.status ∧
      (ExtStatusPolicy.shallowMoveTo sampleExt freshExt).2.store = sampleExt.store) ∧
    ∃ b k v, ExtStatusPolicy.isUsed sampleExt 1 = some b ∧
      ExtStatusPolicy.constRefToKey sampleExt 1 = some k ∧
      ExtStatusPolicy.valueAt sampleExt 1 = some v ∧
      ExtStatusPolicy.isUsed (ExtStatusPolicy.shallowMoveTo sampleExt freshExt).2 1 = some b ∧
      ExtStatusPolicy.constRefToKey (ExtStatusPolicy.shallowMoveTo sampleExt freshExt).2 1
        = some k ∧
      ExtStatusPolicy.valueAt (ExtStatusPolicy.shallowMoveTo sampleExt freshExt).2 1 = some v :=
  ⟨by decide, move_correctness sampleExt freshExt 1 (by decide) (by decide)⟩

/-! ## The implicit strategy and its sentinel -/

/-- C6: under the implicit strategy, for `i < capacity` and a key `k` other than the sentinel,
writing `k` through `refToKey(i)` and then calling `setAsUsed(i)` gives `isUsed(i) = true` and
`constRefToKey(i) = k`; and in every table state `isUsed(i)` is true exactly when the key stored
at `i` is not the sentinel. -/
theorem sentinel_safety {K V : Type} [DecidableEq K] (magicEmptyKey : K)
    (t : Implicit.Table K V) (i : Nat) (hi : i < t.capacity) :
    (∀ k : K, k ≠ magicEmptyKey →
      Implicit.isUsed magicEmptyKey
        (Implicit.setAsUsed (Implicit.refToKeyAssign t i k) i) i = some true ∧
      Implicit.constRefToKey magicEmptyKey
        (Implicit.setAsUsed (Implicit.refToKeyAssign t i k) i) i = Except.ok k) ∧
    ∃ key, SlotStore.constRefToKey t i = some key ∧
      (Implicit.isUsed magicEmptyKey t i = some true ↔ key ≠ magicEmptyKey) := by
  obtain ⟨key, hkey⟩ := SlotStore.constRefToKey_of_lt_capacity t i hi
  refine ⟨fun k hk => ?_, key, hkey, ?_⟩
  · have hread : SlotStore.constRefToKey (Implicit.refToKeyAssign t i k) i = some k := by
      simp [Implicit.refToKeyAssign, SlotStore.constRefToKey_modifyKey, hkey]
    have hused : Implicit.isUsed magicEmptyKey (Implicit.refToKeyAssign t i k) i = some true := by
      simp [Implicit.isUsed, hread, hk]
    refine ⟨by simpa [Implicit.setAsUsed] using hused, ?_⟩
    simp only [Implicit.setAsUsed, Implicit.constRefToKey, hused, hread]
  · simp [Implicit.isUsed, hkey]

/-- Instance of C6: key 9 (sentinel 0) written at slot 2 of a fresh implicit table. -/
theorem sentinel_safety_witness :
    2 < freshImplicit.capacity ∧
    (∀ k : Nat, k ≠ 0 →
      Implicit.isUsed 0
        (Implicit.setAsUsed (Implicit.refToKeyAssign freshImplicit 2 k) 2) 2 = some true ∧
      Implicit.constRefToKey 0
        (Implicit.setAsUsed (Implicit.refToKeyAssign freshImplicit 2 k) 2) 2 = Except.ok k) ∧
    ∃ key, SlotStore.constRefToKey freshImplicit 2 = some key ∧
      (Implicit.isUsed 0 freshImplicit 2 = some true ↔ key ≠ 0) :=
  ⟨by decide, sentinel_safety 0 freshImplicit 2 (by decide)⟩

/-- C9: under the implicit strategy, for `i < capacity`, `setAsUsed(i)` returns the table
unchanged (so `isUsed(i)` is as before), and `setAsEmpty(i)` stores the sentinel as the key of
slot `i`, keeps the table's capacity and leaves the key of every other slot unchanged. -/
theorem implicit_operations {K V : Type} [DecidableEq K] (magicEmptyKey : K)
    (t : Implicit.Table K V) (i : Nat) (hi : i < t.capacity) :
    (Implicit.setAsUsed t i = t ∧
      Implicit.isUsed magicEmptyKey (Implicit.setAsUsed t i) i
        = Implicit.isUsed magicEmptyKey t i) ∧
    SlotStore.constRefToKey (Implicit.setAsEmpty magicEmptyKey t i) i = some magicEmptyKey ∧
    (Implicit.setAsEmpty magicEmptyKey t i).capacity = t.capacity ∧
    ∀ j, j ≠ i →
      SlotStore.constRefToKey (Implicit.setAsEmpty magicEmptyKey t i) j
        = SlotStore.constRefToKey t j := by
  obtain ⟨key, hkey⟩ := SlotStore.constRefToKey_of_lt_capacity t i hi
  refine ⟨⟨rfl, rfl⟩, ?_, ?_, fun j hj => ?_⟩
  · simp [Implicit.setAsEmpty, SlotStore.constRefToKey_modifyKey, hkey]
  · exact SlotStore.capacity_modifyKey t i _
  · simp [Implicit.setAsEmpty, SlotStore.constRefToKey_modifyKey, hj]

/-- Instance of C9: slot 1 of the sample implicit table (key 11, sentinel 0). -/
theorem implicit_operations_witness :
    1 < sampleImplicit.capacity ∧
    (Implicit.setAsUsed sampleImplicit 1 = sampleImplicit ∧
      Implicit.isUsed 0 (Implicit.setAsUsed sampleImplicit 1) 1
        = Implicit.isUsed 0 sampleImplicit 1) ∧
    SlotStore.constRefToKey (Implicit.setAsEmpty 0 sampleImplicit 1) 1 = some 0 ∧
    (Implicit.setAsEmpty 0 sampleImplicit 1).capacity = sampleImplicit.capacity ∧
    ∀ j, j ≠ 1 →
      SlotStore.constRefToKey (Implicit.setAsEmpty 0 sampleImplicit 1) j
        = SlotStore.constRefToKey sampleImplicit j :=
  ⟨by decide, implicit_operations 0 sampleImplicit 1 (by decide)⟩

/-! ## Idempotence and frame of the toggles -/

/-- C7: under each of the three strategies, for every table state and `i < capacity`, a second
`setAsUsed(i)` yields the same table state as the first, and a second `setAsEmpty(i)` yields the
same table state as the first; in particular `isUsed(j)` is the same for every `j`. -/
theorem toggle_idempotent {K V : Type} [DecidableEq K] (magicEmptyKey : K) (i : Nat) :
    (∀ t : Implicit.Table K V, i < t.capacity →
      Implicit.setAsUsed (Implicit.setAsUsed t i) i = Implicit.setAsUsed t i ∧
      Implicit.setAsEmpty magicEmptyKey (Implicit.setAsEmpty magicEmptyKey t i) i
        = Implicit.setAsEmpty magicEmptyKey t i ∧
      ∀ j, Implicit.isUsed magicEmptyKey (Implicit.setAsUsed (Implicit.setAsUsed t i) i) j
          = Implicit.isUsed magicEmptyKey (Implicit.setAsUsed t i) j ∧
        Implicit.isUsed magicEmptyKey
            (Implicit.setAsEmpty magicEmptyKey (Implicit.setAsEmpty magicEmptyKey t i) i) j
          = Implicit.isUsed magicEmptyKey (Implicit.setAsEmpty magicEmptyKey t i) j) ∧
    (∀ t : ExtStatusPolicy.Table K V, ExtStatusPolicy.WF t → i < ExtStatusPolicy.capacity t →
      ExtStatusPolicy.setAsUsed (ExtStatusPolicy.setAsUsed t i) i
        = ExtStatusPolicy.setAsUsed t i ∧
      ExtStatusPolicy.setAsEmpty (ExtStatusPolicy.setAsEmpty t i) i
        = ExtStatusPolicy.setAsEmpty t i ∧
      ∀ j, ExtStatusPolicy.isUsed (ExtStatusPolicy.setAsUsed (ExtStatusPolicy.setAsUsed t i) i) j
          = ExtStatusPolicy.isUsed (ExtStatusPolicy.setAsUsed t i) j ∧
        ExtStatusPolicy.isUsed (ExtStatusPolicy.setAsEmpty (ExtStatusPolicy.setAsEmpty t i) i) j
          = ExtStatusPolicy.isUsed (ExtStatusPolicy.setAsEmpty t i) j) ∧
    (∀ t : EmbStatusPolicy.Table K V, i < t.capacity →
      EmbStatusPolicy.setAsUsed (EmbStatusPolicy.setAsUsed t i) i
        = EmbStatusPolicy.setAsUsed t i ∧
      EmbStatusPolicy.setAsEmpty (EmbStatusPolicy.setAsEmpty t i) i
        = EmbStatusPolicy.setAsEmpty t i ∧
      ∀ j, EmbStatusPolicy.isUsed (EmbStatusPolicy.setAsUsed (EmbStatusPolicy.setAsUsed t i) i) j
          = EmbStatusPolicy.isUsed (EmbStatusPolicy.setAsUsed t i) j ∧
        EmbStatusPolicy.isUsed (EmbStatusPolicy.setAsEmpty (EmbStatusPolicy.setAsEmpty t i) i) j
          = EmbStatusPolicy.isUsed (EmbStatusPolicy.setAsEmpty t i) j) := by
  refine ⟨fun t _ => ?_, fun t _ _ => ?_, fun t _ => ?_⟩
  · have hu : Implicit.setAsUsed (Implicit.setAsUsed t i) i = Implicit.setAsUsed t i := rfl
    have he : Implicit.setAsEmpty magicEmptyKey (Implicit.setAsEmpty magicEmptyKey t i) i
        = Implicit.setAsEmpty magicEmptyKey t i := by
      unfold Implicit.setAsEmpty
      rw [SlotStore.modifyKey_modifyKey]
    exact ⟨hu, he, fun j => ⟨by rw [hu], by rw [he]⟩⟩
  · have hu : ExtStatusPolicy.setAsUsed (ExtStatusPolicy.setAsUsed t i) i
        = ExtStatusPolicy.setAsUsed t i := by
      simp [ExtStatusPolicy.setAsUsed, StatusArray.set_set]
    have he : ExtStatusPolicy.setAsEmpty (ExtStatusPolicy.setAsEmpty t i) i
        = ExtStatusPolicy.setAsEmpty t i := by
      simp [ExtStatusPolicy.setAsEmpty, StatusArray.set_set]
    exact ⟨hu, he, fun j => ⟨by rw [hu], by rw [he]⟩⟩
  · have hu : EmbStatusPolicy.setAsUsed (EmbStatusPolicy.setAsUsed t i) i
        = EmbStatusPolicy.setAsUsed t i := by
      unfold EmbStatusPolicy.setAsUsed
      rw [SlotStore.modifyKey_modifyKey]
    have he : EmbStatusPolicy.setAsEmpty (EmbStatusPolicy.setAsEmpty t i) i
        = EmbStatusPolicy.setAsEmpty t i := by
      unfold EmbStatusPolicy.setAsEmpty
      rw [SlotStore.modifyKey_modifyKey]
    exact ⟨hu, he, fun j => ⟨by rw [hu], by rw [he]⟩⟩

/-- Instance of C7: slot 1 of the three sample tables; the state equalities of the theorem are
checked against the evaluated tables. -/
theorem toggle_idempotent_witness :
    (1 < sampleImplicit.capacity ∧ ExtStatusPolicy.WF sampleExt ∧
      1 < ExtStatusPolicy.capacity sampleExt ∧ 1 < sampleEmb.capacity) ∧
    (Implicit.setAsUsed (Implicit.setAsUsed sampleImplicit 1) 1
        = Implicit.setAsUsed sampleImplicit 1 ∧
      Implicit.setAsEmpty 0 (Implicit.setAsEmpty 0 sampleImplicit 1) 1
        = Implicit.setAsEmpty 0 sampleImplicit 1) ∧
    (ExtStatusPolicy.setAsUsed (ExtStatusPolicy.setAsUsed sampleExt 1) 1
        = ExtStatusPolicy.setAsUsed sampleExt 1 ∧
      ExtStatusPolicy.setAsEmpty (ExtStatusPolicy.setAsEmpty sampleExt 1) 1
        = ExtStatusPolicy.setAsEmpty sampleExt 1) ∧
    (EmbStatusPolicy.setAsUsed (EmbStatusPolicy.setAsUsed sampleEmb 1) 1
        = EmbStatusPolicy.setAsUsed sampleEmb 1 ∧
      EmbStatusPolicy.setAsEmpty (EmbStatusPolicy.setAsEmpty sampleEmb 1) 1
        = EmbStatusPolicy.setAsEmpty sampleEmb 1) :=
  have h := toggle_idempotent (K := Nat) (V := Nat) 0 1
  have h1 := h.1 sampleImplicit (by decide)
  have h2 := h.2.1 sampleExt (by decide) (by decide)
  have h3 := h.2.2 sampleEmb (by decide)
  ⟨by decide, ⟨h1.1, h1.2.1⟩, ⟨h2.1, h2.2.1⟩, ⟨h3.1, h3.2.1⟩⟩

/-- C8: under External and Embedded, for every table state and `i < capacity`, `setAsUsed(i)`
and `setAsEmpty(i)` leave the key and the value stored at every slot (slot `i` included)
unchanged and leave `isUsed(j)` unchanged for every `j` other than `i`; and on a fresh
capacity-4 embedded table, after `setAsUsed(2)` exactly index 2 is used and after
`setAsEmpty(2)` no index is used. -/
theorem toggle_frame {K V : Type} (i : Nat) :
    (∀ t : ExtStatusPolicy.Table K V, ExtStatusPolicy.WF t → i < ExtStatusPolicy.capacity t →
      ((ExtStatusPolicy.setAsUsed t i).store = t.store ∧
        (ExtStatusPolicy.setAsEmpty t i).store = t.store) ∧
      (∀ j, ExtStatusPolicy.constRefToKey (ExtStatusPolicy.setAsUsed t i) j
            = ExtStatusPolicy.constRefToKey t j ∧
          ExtStatusPolicy.constRefToKey (ExtStatusPolicy.setAsEmpty t i) j
            = ExtStatusPolicy.constRefToKey t j) ∧
      ∀ j, j ≠ i →
        ExtStatusPolicy.isUsed (ExtStatusPolicy.setAsUsed t i) j = ExtStatusPolicy.isUsed t j ∧
        ExtStatusPolicy.isUsed (ExtStatusPolicy.setAsEmpty t i) j
          = ExtStatusPolicy.isUsed t j) ∧
    (∀ t : EmbStatusPolicy.Table K V, i < t.capacity →
      (∀ j, EmbStatusPolicy.constRefToKey (EmbStatusPolicy.setAsUsed t i) j
            = EmbStatusPolicy.constRefToKey t j ∧
          SlotStore.valueAt (EmbStatusPolicy.setAsUsed t i) j = SlotStore.valueAt t j ∧
          EmbStatusPolicy.constRefToKey (EmbStatusPolicy.setAsEmpty t i) j
            = EmbStatusPolicy.constRefToKey t j ∧
          SlotStore.valueAt (EmbStatusPolicy.setAsEmpty t i) j = SlotStore.valueAt t j) ∧
      ∀ j, j ≠ i →
        EmbStatusPolicy.isUsed (EmbStatusPolicy.setAsUsed t i) j = EmbStatusPolicy.isUsed t j ∧
        EmbStatusPolicy.isUsed (EmbStatusPolicy.setAsEmpty t i) j
          = EmbStatusPolicy.isUsed t j) ∧
    (∀ (init : Nat → (K × Bool) × V) (j : Nat), j < 4 →
      EmbStatusPolicy.isUsed
          (EmbStatusPolicy.setAsUsed (EmbStatusPolicy.create 4 init) 2) j
        = some (decide (j = 2)) ∧
      EmbStatusPolicy.isUsed
          (EmbStatusPolicy.setAsEmpty
            (EmbStatusPolicy.setAsUsed (EmbStatusPolicy.create 4 init) 2) 2) j
        = some false) := by
  refine ⟨fun t _ _ => ⟨⟨rfl, rfl⟩, fun j => ⟨rfl, rfl⟩, fun j hj => ?_⟩,
    fun t _ => ⟨fun j => ?_, fun j hj => ?_⟩, fun init j hj => ?_⟩
  · simp [ExtStatusPolicy.ext_isUsed_setAsUsed, ExtStatusPolicy.ext_isUsed_setAsEmpty, hj]
  · refine ⟨?_, ?_, ?_, ?_⟩
    · unfold EmbStatusPolicy.setAsUsed
      rw [EmbStatusPolicy.emb_constRefToKey_modifyKey]
      split <;> simp [EmbStatusPolicy.constRefToKey]
    · exact SlotStore.valueAt_modifyKey t i j _
    · unfold EmbStatusPolicy.setAsEmpty
      rw [EmbStatusPolicy.emb_constRefToKey_modifyKey]
      split <;> simp [EmbStatusPolicy.constRefToKey]
    · exact SlotStore.valueAt_modifyKey t i j _
  · simp [EmbStatusPolicy.setAsUsed, EmbStatusPolicy.setAsEmpty,
      EmbStatusPolicy.emb_isUsed_modifyKey, hj]
  · have hslot := EmbStatusPolicy.emb_slots_create 4 init j hj
    have hfresh : EmbStatusPolicy.isUsed (EmbStatusPolicy.create 4 init) j = some false := by
      simp [EmbStatusPolicy.isUsed, SlotStore.constRefToKey, hslot]
    have hkey : SlotStore.constRefToKey (EmbStatusPolicy.create 4 init) j
        = some ((init j).1.1, false) := by
      simp [SlotStore.constRefToKey, hslot]
    constructor
    · unfold EmbStatusPolicy.setAsUsed
      rw [EmbStatusPolicy.emb_isUsed_modifyKey]
      by_cases h2 : j = 2
      · subst h2
        simp [hkey]
      · simp [h2, hfresh]
    · unfold EmbStatusPolicy.setAsEmpty EmbStatusPolicy.setAsUsed
      rw [EmbStatusPolicy.emb_isUsed_modifyKey, EmbStatusPolicy.emb_isUsed_modifyKey,
        SlotStore.constRefToKey_modifyKey]
      by_cases h2 : j = 2
      · subst h2
        simp [hkey]
      · simp [h2, hfresh]

/-- Instance of C8: slot 1 of the sample external and embedded tables, observed at slot 0 and
at slot 1, and index 3 of the fresh capacity-4 embedded table of the scenario. -/
theorem toggle_frame_witness :
    (ExtStatusPolicy.WF sampleExt ∧ 1 < ExtStatusPolicy.capacity sampleExt ∧
      1 < sampleEmb.capacity ∧ 3 < 4 ∧ (0 : Nat) ≠ 1) ∧
    ((ExtStatusPolicy.setAsEmpty sampleExt 1).store = sampleExt.store ∧
      ExtStatusPolicy.isUsed (ExtStatusPolicy.setAsEmpty sampleExt 1) 0
        = ExtStatusPolicy.isUsed sampleExt 0) ∧
    (EmbStatusPolicy.constRefToKey (EmbStatusPolicy.setAsEmpty sampleEmb 1) 1
        = EmbStatusPolicy.constRefToKey sampleEmb 1 ∧
      EmbStatusPolicy.isUsed (EmbStatusPolicy.setAsEmpty sampleEmb 1) 0
        = EmbStatusPolicy.isUsed sampleEmb 0) ∧
    (EmbStatusPolicy.isUsed
        (EmbStatusPolicy.setAsUsed (EmbStatusPolicy.create 4 (fun j => ((j + 5, true), 0))) 2) 3
        = some (decide (3 = 2)) ∧
      EmbStatusPolicy.isUsed
        (EmbStatusPolicy.setAsEmpty
          (EmbStatusPolicy.setAsUsed
            (EmbStatusPolicy.create 4 (fun j => ((j + 5, true), 0))) 2) 2) 3
        = some false) :=
  have h := toggle_frame (K := Nat) (V := Nat) 1
  have h1 := h.1 sampleExt (by decide) (by decide)
  have h2 := h.2.1 sampleEmb (by decide)
  ⟨by decide, ⟨h1.1.2, (h1.2.2 0 (by decide)).2⟩, ⟨(h2.1 1).2.2.1, (h2.2 0 (by decide)).2⟩,
    h.2.2 (fun j => ((j + 5, true), 0)) 3 (by decide)⟩

/-! ## Key writes under External and Embedded -/

/-- C10: under External and Embedded, for every table state, `i < capacity` and every key `k`
(no value is excluded), writing `k` through `refToKey(i)` leaves `isUsed(j)` unchanged for every
`j` (also `j = i`), and the key then read at slot `i` is `k`; under Embedded the write changes
only the key field of the (key, flag) pair of slot `i`: its flag, its value and every other slot
are as before. -/
theorem key_write_keeps_occupancy {K V : Type} (i : Nat) (k : K) :
    (∀ t : ExtStatusPolicy.Table K V, ExtStatusPolicy.WF t → i < ExtStatusPolicy.capacity t →
      (∀ j, ExtStatusPolicy.isUsed (ExtStatusPolicy.refToKeyAssign t i k) j
        = ExtStatusPolicy.isUsed t j) ∧
      ExtStatusPolicy.constRefToKey (ExtStatusPolicy.refToKeyAssign t i k) i = some k) ∧
    (∀ t : EmbStatusPolicy.Table K V, i < t.capacity →
      (∀ j, EmbStatusPolicy.isUsed (EmbStatusPolicy.refToKeyAssign t i k) j
        = EmbStatusPolicy.isUsed t j) ∧
      EmbStatusPolicy.constRefToKey (EmbStatusPolicy.refToKeyAssign t i k) i = some k ∧
      (∃ k0 flag v, t.slots[i]? = some ((k0, flag), v) ∧
        (EmbStatusPolicy.refToKeyAssign t i k).slots[i]? = some ((k, flag), v)) ∧
      ∀ j, j ≠ i → (EmbStatusPolicy.refToKeyAssign t i k).slots[j]? = t.slots[j]?) := by
  refine ⟨fun t _ hi => ⟨fun j => rfl, ?_⟩, fun t hi => ⟨fun j => ?_, ?_, ?_, fun j hj => ?_⟩⟩
  · unfold ExtStatusPolicy.capacity at hi
    obtain ⟨key, hkey⟩ := SlotStore.constRefToKey_of_lt_capacity t.store i hi
    simp [ExtStatusPolicy.constRefToKey, ExtStatusPolicy.refToKeyAssign,
      SlotStore.constRefToKey_modifyKey, hkey]
  · unfold EmbStatusPolicy.refToKeyAssign
    rw [EmbStatusPolicy.emb_isUsed_modifyKey]
    split <;> simp [EmbStatusPolicy.isUsed]
  · obtain ⟨key, hkey⟩ := SlotStore.constRefToKey_of_lt_capacity t i hi
    simp [EmbStatusPolicy.refToKeyAssign, EmbStatusPolicy.emb_constRefToKey_modifyKey, hkey]
  · obtain ⟨p, hp⟩ := SlotStore.slots_of_lt_capacity t i hi
    refine ⟨p.1.1, p.1.2, p.2, hp, ?_⟩
    simp [EmbStatusPolicy.refToKeyAssign, SlotStore.slots_modifyKey, hp]
  · simp [EmbStatusPolicy.refToKeyAssign, SlotStore.slots_modifyKey, hj]

/-- Instance of C10: key 0 is written at slot 1 of the sample external and embedded tables. -/
theorem key_write_keeps_occupancy_witness :
    (ExtStatusPolicy.WF sampleExt ∧ 1 < ExtStatusPolicy.capacity sampleExt ∧
      1 < sampleEmb.capacity) ∧
    ((∀ j, ExtStatusPolicy.isUsed (ExtStatusPolicy.refToKeyAssign sampleExt 1 0) j
        = ExtStatusPolicy.isUsed sampleExt j) ∧
      ExtStatusPolicy.constRefToKey (ExtStatusPolicy.refToKeyAssign sampleExt 1 0) 1 = some 0) ∧
    ((∀ j, EmbStatusPolicy.isUsed (EmbStatusPolicy.refToKeyAssign sampleEmb 1 0) j
        = EmbStatusPolicy.isUsed sampleEmb j) ∧
      EmbStatusPolicy.constRefToKey (EmbStatusPolicy.refToKeyAssign sampleEmb 1 0) 1 = some 0) :=
  have h := key_write_keeps_occupancy (K := Nat) (V := Nat) 1 0
  have h2 := h.2 sampleEmb (by decide)
  ⟨by decide, h.1 sampleExt (by decide) (by decide), ⟨h2.1, h2.2.1⟩⟩

/-! ## The precondition of `constRefToKey` -/

/-- C11: with assertions evaluated, for every implicit table state and `i < capacity`,
`constRefToKey(i)` returns the key stored at slot `i` when `isUsed(i)` is true and fails its
assertion when `isUsed(i)` is false, so it returns a key exactly when `isUsed(i)` is true; and
it fails its assertion on every slot of a freshly constructed table. -/
theorem implicit_constRefToKey_precondition {K V : Type} [DecidableEq K] (magicEmptyKey : K) :
    (∀ (t : Implicit.Table K V) (i : Nat), i < t.capacity →
      (∃ key, SlotStore.constRefToKey t i = some key ∧
        (Implicit.isUsed magicEmptyKey t i = some true →
          Implicit.constRefToKey magicEmptyKey t i = Except.ok key) ∧
        (Implicit.isUsed magicEmptyKey t i = some false →
          Implicit.constRefToKey magicEmptyKey t i = Except.error Fault.assertionFailed)) ∧
      ((∃ k, Implicit.constRefToKey magicEmptyKey t i = Except.ok k) ↔
        Implicit.isUsed magicEmptyKey t i = some true)) ∧
    (∀ (n : Nat) (init : Nat → K × V) (i : Nat), i < n →
      Implicit.constRefToKey magicEmptyKey (Implicit.create magicEmptyKey n init) i
        = Except.error Fault.assertionFailed) := by
  refine ⟨fun t i hi => ?_, fun n init i hi => ?_⟩
  · obtain ⟨key, hkey⟩ := SlotStore.constRefToKey_of_lt_capacity t i hi
    have hu : Implicit.isUsed magicEmptyKey t i = some (key != magicEmptyKey) := by
      simp [Implicit.isUsed, hkey]
    by_cases hk : key = magicEmptyKey
    · have hb : (key != magicEmptyKey) = false := by simp [hk]
      rw [hb] at hu
      have hc : Implicit.constRefToKey magicEmptyKey t i
          = Except.error Fault.assertionFailed := by
        simp only [Implicit.constRefToKey, hu]
      refine ⟨⟨key, hkey, fun h => ?_, fun _ => hc⟩, ?_⟩
      · rw [hu] at h
        cases h
      · rw [hc, hu]
        constructor
        · rintro ⟨k, h⟩
          cases h
        · intro h
          cases h
    · have hb : (key != magicEmptyKey) = true := by simp [hk]
      rw [hb] at hu
      have hc : Implicit.constRefToKey magicEmptyKey t i = Except.ok key := by
        simp only [Implicit.constRefToKey, hu, hkey]
      refine ⟨⟨key, hkey, fun _ => hc, fun h => ?_⟩, ?_⟩
      · rw [hu] at h
        cases h
      · exact ⟨fun _ => hu, fun _ => ⟨key, hc⟩⟩
  · have hslot := Implicit.implicit_slots_create magicEmptyKey n init i hi
    have hu : Implicit.isUsed magicEmptyKey (Implicit.create magicEmptyKey n init) i
        = some false := by
      simp [Implicit.isUsed, SlotStore.constRefToKey, hslot]
    simp only [Implicit.constRefToKey, hu]

/-- Instance of C11: slot 1 of the sample implicit table (key 11, sentinel 0) and slot 2 of a
fresh implicit table of capacity 3. -/
theorem implicit_constRefToKey_precondition_witness :
    (1 < sampleImplicit.capacity ∧ 2 < 3) ∧
    ((∃ k, Implicit.constRefToKey 0 sampleImplicit 1 = Except.ok k) ↔
      Implicit.isUsed 0 sampleImplicit 1 = some true) ∧
    Implicit.constRefToKey 0 (Implicit.create 0 3 (fun j => (j + 5, j))) 2
      = Except.error Fault.assertionFailed :=
  have h := implicit_constRefToKey_precondition (K := Nat) (V := Nat) 0
  ⟨by decide, (h.1 sampleImplicit 1 (by decide)).2, h.2 3 (fun j => (j + 5, j)) 2 (by decide)⟩

/-- Counterexample to C12 as stated: on a fresh embedded table of capacity 1 slot 0 is unused,
yet `constRefToKey(0)` is a successful read of the key field (7 here). -/
theorem embedded_constRefToKey_unused_counterexample :
    0 < (EmbStatusPolicy.create 1 (fun _ => (((7 : Nat), true), ()))).capacity ∧
    EmbStatusPolicy.isUsed (EmbStatusPolicy.create 1 (fun _ => (((7 : Nat), true), ()))) 0
      = some false ∧
    EmbStatusPolicy.constRefToKey (EmbStatusPolicy.create 1 (fun _ => (((7 : Nat), true), ()))) 0
      = some 7 := by
  decide

/-- C12 (amended): for every embedded table state and `i < capacity`, `constRefToKey(i)` yields
the key field of slot `i` whatever the flag of the slot: it yields the key when `isUsed(i)` is
true, and it is a successful read of the key field as well when `isUsed(i)` is false. -/
theorem embedded_constRefToKey_reads_key_field {K V : Type} (t : EmbStatusPolicy.Table K V)
    (i : Nat) (hi : i < t.capacity) :
    ∃ k flag v, t.slots[i]? = some ((k, flag), v) ∧
      EmbStatusPolicy.isUsed t i = some flag ∧
      EmbStatusPolicy.constRefToKey t i = some k := by
  obtain ⟨p, hp⟩ := SlotStore.slots_of_lt_capacity t i hi
  exact ⟨p.1.1, p.1.2, p.2, hp,
    by simp [EmbStatusPolicy.isUsed, SlotStore.constRefToKey, hp],
    by simp [EmbStatusPolicy.constRefToKey, SlotStore.constRefToKey, hp]⟩

/-- Instance of C12 (amended): slot 0 of the sample embedded table, which is unused. -/
theorem embedded_constRefToKey_reads_key_field_witness :
    0 < sampleEmb.capacity ∧
    ∃ k flag v, sampleEmb.slots[0]? = some ((k, flag), v) ∧
      EmbStatusPolicy.isUsed sampleEmb 0 = some flag ∧
      EmbStatusPolicy.constRefToKey sampleEmb 0 = some k :=
  ⟨by decide, embedded_constRefToKey_reads_key_field sampleEmb 0 (by decide)⟩

/-! ## `copyElemTo` of the external variant sets the destination status -/

/-- C20: for external tables and indices in range, after `source.copyElemTo(dest, loc, i)` the
destination has `isUsed(loc) = true` whatever `source.isUsed(i)` is; so `dest.isUsed(loc)`
equals `source.isUsed(i)` exactly when the source slot is used. -/
theorem ext_copyElemTo_marks_unconditionally {K V : Type} (src dest : ExtStatusPolicy.Table K V)
    (loc i : Nat) (hws : ExtStatusPolicy.WF src) (hwd : ExtStatusPolicy.WF dest)
    (hi : i < ExtStatusPolicy.capacity src) (hloc : loc < ExtStatusPolicy.capacity dest) :
    ExtStatusPolicy.isUsed (ExtStatusPolicy.copyElemTo src dest loc i) loc = some true ∧
    (∃ b, ExtStatusPolicy.isUsed src i = some b) ∧
    (ExtStatusPolicy.isUsed (ExtStatusPolicy.copyElemTo src dest loc i) loc
        = ExtStatusPolicy.isUsed src i ↔ ExtStatusPolicy.isUsed src i = some true) := by
  unfold ExtStatusPolicy.WF at hwd
  unfold ExtStatusPolicy.capacity at hloc
  have hb : loc < dest.status.bits.length := by omega
  have hset : ExtStatusPolicy.isUsed (ExtStatusPolicy.copyElemTo src dest loc i) loc
      = some true := by
    simp [ExtStatusPolicy.isUsed, ExtStatusPolicy.copyElemTo, StatusArray.get, StatusArray.set,
      List.getElem?_set, hb]
  refine ⟨hset, ExtStatusPolicy.ext_isUsed_of_lt_capacity src hws i hi, ?_⟩
  rw [hset]
  exact ⟨fun h => h.symm, fun h => h.symm⟩

/-- Instance of C20: the unused slot 0 of the sample external table is copied to slot 2 of a
fresh table; the destination slot reads used although the source slot does not. -/
theorem ext_copyElemTo_marks_unconditionally_witness :
    (ExtStatusPolicy.WF sampleExt ∧ ExtStatusPolicy.WF freshExt ∧
      0 < ExtStatusPolicy.capacity sampleExt ∧ 2 < ExtStatusPolicy.capacity freshExt ∧
      ExtStatusPolicy.isUsed sampleExt 0 = some false) ∧
    ExtStatusPolicy.isUsed (ExtStatusPolicy.copyElemTo sampleExt freshExt 2 0) 2 = some true ∧
    (∃ b, ExtStatusPolicy.isUsed sampleExt 0 = some b) ∧
    (ExtStatusPolicy.isUsed (ExtStatusPolicy.copyElemTo sampleExt freshExt 2 0) 2
        = ExtStatusPolicy.isUsed sampleExt 0 ↔ ExtStatusPolicy.isUsed sampleExt 0 = some true) :=
  ⟨by decide, ext_copyElemTo_marks_unconditionally sampleExt freshExt 2 0 (by decide)
    (by decide) (by decide) (by decide)⟩

/-! ## Agreement of the strategies -/

/-- C14: for every capacity `n` and every finite sequence of slot operations (key write
through `refToKey`, `setAsUsed`, `setAsEmpty`) on slots below `n`, a freshly constructed
external table and a freshly constructed embedded table with the same initial keys agree,
after the sequence, on `isUsed(j)` and on the key stored at `j` for every `j < n`, and both
reads succeed. -/
theorem ext_emb_interchangeable {K V : Type} (n : Nat) (init : Nat → K × V)
    (flags : Nat → Bool) (ops : List (SlotOp K)) (_hops : ∀ op ∈ ops, op.index < n)
    (j : Nat) (hj : j < n) :
    ∃ b k,
      ExtStatusPolicy.isUsed (ExtStatusPolicy.run (ExtStatusPolicy.create n init) ops) j
        = some b ∧
      EmbStatusPolicy.isUsed
          (EmbStatusPolicy.run
            (EmbStatusPolicy.create n (fun i => (((init i).1, flags i), (init i).2))) ops) j
        = some b ∧
      ExtStatusPolicy.constRefToKey (ExtStatusPolicy.run (ExtStatusPolicy.create n init) ops) j
        = some k ∧
      EmbStatusPolicy.constRefToKey
          (EmbStatusPolicy.run
            (EmbStatusPolicy.create n (fun i => (((init i).1, flags i), (init i).2))) ops) j
        = some k := by
  have hslot := EmbStatusPolicy.emb_slots_create n
    (fun i => (((init i).1, flags i), (init i).2)) j hj
  have hu0 : ExtStatusPolicy.isUsed (ExtStatusPolicy.create n init) j
      = EmbStatusPolicy.isUsed
          (EmbStatusPolicy.create n (fun i => (((init i).1, flags i), (init i).2))) j := by
    simp [ExtStatusPolicy.isUsed, ExtStatusPolicy.create, StatusArray.create, StatusArray.get,
      EmbStatusPolicy.isUsed, SlotStore.constRefToKey, hslot, hj]
  have hk0 : ExtStatusPolicy.constRefToKey (ExtStatusPolicy.create n init) j
      = EmbStatusPolicy.constRefToKey
          (EmbStatusPolicy.create n (fun i => (((init i).1, flags i), (init i).2))) j := by
    simp [ExtStatusPolicy.constRefToKey, ExtStatusPolicy.create, SlotStore.create,
      EmbStatusPolicy.constRefToKey, SlotStore.constRefToKey, hslot, hj]
  obtain ⟨hu, hk⟩ := ext_emb_run_agree ops j _ _ hu0 hk0
  have hcap : (EmbStatusPolicy.run
      (EmbStatusPolicy.create n (fun i => (((init i).1, flags i), (init i).2))) ops).capacity
      = n := by
    rw [EmbStatusPolicy.emb_capacity_run]
    unfold EmbStatusPolicy.create EmbStatusPolicy.setAsEmpty
    rw [SlotStore.capacity_foldl_modifyKey, SlotStore.capacity_create]
  obtain ⟨p, hp⟩ := SlotStore.slots_of_lt_capacity _ j (by rw [hcap]; exact hj)
  refine ⟨p.1.2, p.1.1, ?_, ?_, ?_, ?_⟩
  · rw [hu]
    simp [EmbStatusPolicy.isUsed, SlotStore.constRefToKey, hp]
  · simp [EmbStatusPolicy.isUsed, SlotStore.constRefToKey, hp]
  · rw [hk]
    simp [EmbStatusPolicy.constRefToKey, SlotStore.constRefToKey, hp]
  · simp [EmbStatusPolicy.constRefToKey, SlotStore.constRefToKey, hp]

/-- Instance of C14: the sample operations on fresh tables of capacity 3, observed at
slot 1. -/
theorem ext_emb_interchangeable_witness :
    ((∀ op ∈ sampleOps, op.index < 3) ∧ 1 < 3) ∧
    ∃ b k,
      ExtStatusPolicy.isUsed
          (ExtStatusPolicy.run (ExtStatusPolicy.create 3 (fun i => (i + 5, i))) sampleOps) 1
        = some b ∧
      EmbStatusPolicy.isUsed
          (EmbStatusPolicy.run
            (EmbStatusPolicy.create 3
              (fun i => ((i + 5, true), i))) sampleOps) 1
        = some b ∧
      ExtStatusPolicy.constRefToKey
          (ExtStatusPolicy.run (ExtStatusPolicy.create 3 (fun i => (i + 5, i))) sampleOps) 1
        = some k ∧
      EmbStatusPolicy.constRefToKey
          (EmbStatusPolicy.run
            (EmbStatusPolicy.create 3
              (fun i => ((i + 5, true), i))) sampleOps) 1
        = some k :=
  ⟨⟨by decide, by decide⟩,
    ext_emb_interchangeable 3 (fun i => (i + 5, i)) (fun _ => true) sampleOps (by decide) 1
      (by decide)⟩

/-! ## The capacity invariant of the external variant -/

/-- C13: in every state of an external table reached from construction with size `n` by a
sequence of `setAsUsed`, `setAsEmpty`, key writes and `resize(newSize, oldSize)` calls with
`oldSize` the current capacity (growing or shrinking), the status array is as long as the slot
storage; and after such a `resize` both have length `newSize` and every slot below
`min newSize oldSize` keeps its occupancy and its key. -/
theorem ext_capacity_invariant {K V : Type} :
    (∀ (n : Nat) (init : Nat → K × V) (ops : List (ExtOp K V)) (r : ExtStatusPolicy.Table K V),
      ExtOp.runChecked (ExtStatusPolicy.create n init) ops = some r →
      r.status.bits.length = r.store.capacity) ∧
    (∀ (t : ExtStatusPolicy.Table K V) (newSize : Nat) (fill : Nat → K × V),
      ExtStatusPolicy.WF t →
      (ExtStatusPolicy.resize t newSize (ExtStatusPolicy.capacity t) fill).status.bits.length
        = newSize ∧
      (ExtStatusPolicy.resize t newSize (ExtStatusPolicy.capacity t) fill).store.capacity
        = newSize ∧
      ∀ i, i < min newSize (ExtStatusPolicy.capacity t) →
        ExtStatusPolicy.isUsed
            (ExtStatusPolicy.resize t newSize (ExtStatusPolicy.capacity t) fill) i
          = ExtStatusPolicy.isUsed t i ∧
        ExtStatusPolicy.constRefToKey
            (ExtStatusPolicy.resize t newSize (ExtStatusPolicy.capacity t) fill) i
          = ExtStatusPolicy.constRefToKey t i) := by
  refine ⟨fun n init ops r hr => ?_, fun t newSize fill hwf => ?_⟩
  · exact ExtOp.WF_runChecked ops _ r (ExtStatusPolicy.ext_WF_create n init) hr
  · obtain ⟨h1, h2⟩ := ExtStatusPolicy.ext_lengths_resize t newSize
      (ExtStatusPolicy.capacity t) fill
    refine ⟨h1, h2, fun i hi => ?_⟩
    have hnew : i < newSize := by omega
    have hold : i < ExtStatusPolicy.capacity t := by omega
    have hcap : i < t.store.capacity := hold
    obtain ⟨p, hp⟩ := SlotStore.slots_of_lt_capacity t.store i hcap
    unfold ExtStatusPolicy.WF at hwf
    have hb : i < t.status.bits.length := by omega
    simp [ExtStatusPolicy.isUsed, ExtStatusPolicy.resize, ExtStatusPolicy.constRefToKey,
      StatusArray.get, StatusArray.resize, SlotStore.constRefToKey,
      SlotStore.slots_resize _ _ _ _ _ hnew, hold, hp, hnew, List.getElem?_eq_getElem hb]

/-- Instance of C13: the sample sequence (grow to 5, shrink to 2) from a fresh table of
capacity 3, and a growth of the sample external table from 3 to 5 observed at slot 1. -/
theorem ext_capacity_invariant_witness :
    (ExtOp.runChecked (ExtStatusPolicy.create 3 (fun j => (j + 5, j))) sampleExtOps
        = some sampleExtResult ∧
      ExtStatusPolicy.WF sampleExt ∧ 1 < min 5 (ExtStatusPolicy.capacity sampleExt)) ∧
    sampleExtResult.status.bits.length = sampleExtResult.store.capacity ∧
    (ExtStatusPolicy.resize sampleExt 5 (ExtStatusPolicy.capacity sampleExt)
        (fun j => (j * 10, 0))).status.bits.length = 5 ∧
    (ExtStatusPolicy.resize sampleExt 5 (ExtStatusPolicy.capacity sampleExt)
        (fun j => (j * 10, 0))).store.capacity = 5 ∧
    ExtStatusPolicy.isUsed
        (ExtStatusPolicy.resize sampleExt 5 (ExtStatusPolicy.capacity sampleExt)
          (fun j => (j * 10, 0))) 1
      = ExtStatusPolicy.isUsed sampleExt 1 ∧
    ExtStatusPolicy.constRefToKey
        (ExtStatusPolicy.resize sampleExt 5 (ExtStatusPolicy.capacity sampleExt)
          (fun j => (j * 10, 0))) 1
      = ExtStatusPolicy.constRefToKey sampleExt 1 :=
  have h := ext_capacity_invariant (K := Nat) (V := Nat)
  have h2 := h.2 sampleExt 5 (fun j => (j * 10, 0)) (by decide)
  ⟨by decide, h.1 3 (fun j => (j + 5, j)) sampleExtOps sampleExtResult (by decide),
    h2.1, h2.2.1, h2.2.2 1 (by decide)⟩

/-- C19: for every capacity `n` and every sequence of caller steps `insert(i, k)` (a key `k`
other than the sentinel written through `refToKey(i)`, then `setAsUsed(i)`) and `erase(i)`
(`setAsEmpty(i)`) on slots below `n`, a freshly constructed implicit table and a freshly
constructed external table agree, after the sequence, on `isUsed(j)` for every `j < n` and on
the key stored at every `j` with `isUsed(j) = true`. -/
theorem implicit_ext_agree_under_discipline {K V : Type} [DecidableEq K] (magicEmptyKey : K)
    (n : Nat) (initI initE : Nat → K × V) (steps : List (CallerStep K))
    (hok : ∀ st ∈ steps, CallerStep.ok magicEmptyKey n st) (j : Nat) (hj : j < n) :
    ∃ b,
      Implicit.isUsed magicEmptyKey
          (Implicit.runSteps magicEmptyKey (Implicit.create magicEmptyKey n initI) steps) j
        = some b ∧
      ExtStatusPolicy.isUsed
          (ExtStatusPolicy.runSteps (ExtStatusPolicy.create n initE) steps) j = some b ∧
      (b = true → ∃ k,
        SlotStore.constRefToKey
            (Implicit.runSteps magicEmptyKey (Implicit.create magicEmptyKey n initI) steps) j
          = some k ∧
        ExtStatusPolicy.constRefToKey
            (ExtStatusPolicy.runSteps (ExtStatusPolicy.create n initE) steps) j = some k) := by
  obtain ⟨hu, ⟨b, hb⟩, ⟨k, hk⟩, hkey⟩ :=
    agreeAt_runSteps magicEmptyKey n j steps _ _ hok
      (agreeAt_create magicEmptyKey n j hj initI initE)
  refine ⟨b, hu.trans hb, hb, fun hbt => ⟨k, ?_, hk⟩⟩
  subst hbt
  exact (hkey hb).trans hk

/-- Instance of C19: the sample steps on fresh tables of capacity 3 (sentinel 0), observed at
slot 1. -/
theorem implicit_ext_agree_under_discipline_witness :
    ((∀ st ∈ sampleSteps, CallerStep.ok 0 3 st) ∧ 1 < 3) ∧
    ∃ b,
      Implicit.isUsed 0
          (Implicit.runSteps 0 (Implicit.create 0 3 (fun i => (i + 5, i))) sampleSteps) 1
        = some b ∧
      ExtStatusPolicy.isUsed
          (ExtStatusPolicy.runSteps (ExtStatusPolicy.create 3 (fun i => (i + 7, i)))
            sampleSteps) 1 = some b ∧
      (b = true → ∃ k,
        SlotStore.constRefToKey
            (Implicit.runSteps 0 (Implicit.create 0 3 (fun i => (i + 5, i))) sampleSteps) 1
          = some k ∧
        ExtStatusPolicy.constRefToKey
            (ExtStatusPolicy.runSteps (ExtStatusPolicy.create 3 (fun i => (i + 7, i)))
              sampleSteps) 1 = some k) :=
  ⟨⟨by simp [sampleSteps, CallerStep.ok], by decide⟩,
    implicit_ext_agree_under_discipline 0 3 (fun i => (i + 5, i)) (fun i => (i + 7, i))
      sampleSteps (by simp [sampleSteps, CallerStep.ok]) 1 (by decide)⟩

end TableWithStatus

namespace DirNetExtras

/-! ## Reading a directed network -/

/-- Without `size_t` overflow, one line raises `nodeCount` to one more than its indices. -/
theorem trackNodeCount_eq_max (nodeCount source dest : Nat)
    (hs : source + 1 < sizeModulus) (hd : dest + 1 < sizeModulus) :
    trackNodeCount nodeCount source dest = max nodeCount (max (source + 1) (dest + 1)) := by
  unfold trackNodeCount
  rw [Nat.mod_eq_of_lt hs, Nat.mod_eq_of_lt hd]
  simp only [ge_iff_le]
  split <;> split <;> omega

theorem foldl_trackNodeCount {D : Type} (lines : List (Line D))
    (hfit : ∀ l ∈ lines, l.source + 1 < sizeModulus ∧ l.dest + 1 < sizeModulus) :
    ∀ acc : Nat,
      lines.foldl (fun nodeCount l => trackNodeCount nodeCount l.source l.dest) acc
        = (nodeIndices lines).foldl (fun a x => max a (x + 1)) acc := by
  induction lines with
  | nil => exact fun acc => rfl
  | cons l ls ih =>
    intro acc
    have hl := hfit l (List.mem_cons_self l ls)
    have hls : ∀ x ∈ ls, x.source + 1 < sizeModulus ∧ x.dest + 1 < sizeModulus :=
      fun x hx => hfit x (List.mem_cons_of_mem l hx)
    simp only [List.foldl_cons, nodeIndices, List.foldr_cons]
    rw [ih hls, trackNodeCount_eq_max acc l.source l.dest hl.1 hl.2]
    have : max (max acc (l.source + 1)) (l.dest + 1)
        = max acc (max (l.source + 1) (l.dest + 1)) := by omega
    rw [this]
    rfl

theorem foldl_max_succ (xs : List Nat) :
    ∀ c : Nat, xs.foldl (fun a x => max a (x + 1)) (c + 1) = 1 + xs.foldl max c := by
  induction xs with
  | nil => exact fun c => by simp [Nat.add_comm]
  | cons x xs ih =>
    intro c
    simp only [List.foldl_cons]
    have : max (c + 1) (x + 1) = max c x + 1 := by omega
    rw [this, ih]

/-- The reading loop computes the documented node count on indices that fit `size_t`. -/
theorem readNodeCount_eq_documented {D : Type} (lines : List (Line D))
    (hfit : ∀ l ∈ lines, l.source + 1 < sizeModulus ∧ l.dest + 1 < sizeModulus) :
    readNodeCount lines = documentedNodeCount lines := by
  unfold readNodeCount documentedNodeCount
  rw [foldl_trackNodeCount lines hfit 0]
  cases h : nodeIndices lines with
  | nil => rfl
  | cons i is =>
    simp only [List.foldl_cons]
    have : max 0 (i + 1) = i + 1 := by omega
    rw [this, foldl_max_succ]

theorem le_foldl_max_succ (xs : List Nat) :
    ∀ acc : Nat, acc ≤ xs.foldl (fun a x => max a (x + 1)) acc ∧
      ∀ x ∈ xs, x < xs.foldl (fun a x => max a (x + 1)) acc := by
  induction xs with
  | nil => exact fun acc => ⟨le_refl _, fun x hx => by cases hx⟩
  | cons y ys ih =>
    intro acc
    simp only [List.foldl_cons]
    obtain ⟨h1, h2⟩ := ih (max acc (y + 1))
    refine ⟨by omega, fun x hx => ?_⟩
    rcases List.mem_cons.mp hx with hxy | hxs
    · subst hxy
      omega
    · exact h2 x hxs

/-- On indices that fit `size_t` every source index is below the node count. -/
theorem source_lt_readNodeCount {D : Type} (lines : List (Line D))
    (hfit : ∀ l ∈ lines, l.source + 1 < sizeModulus ∧ l.dest + 1 < sizeModulus) :
    ∀ l ∈ lines, l.source < readNodeCount lines := by
  intro l hl
  unfold readNodeCount
  rw [foldl_trackNodeCount lines hfit 0]
  apply (le_foldl_max_succ (nodeIndices lines) 0).2
  clear hfit
  induction lines with
  | nil => cases hl
  | cons y ys ih =>
    simp only [nodeIndices, List.foldr_cons]
    rcases List.mem_cons.mp hl with h | h
    · subst h
      exact List.mem_cons_self _ _
    · exact List.mem_cons_of_mem _ (List.mem_cons_of_mem _ (ih h))

theorem documentedAssignments_cons_self {D : Type} (l : Line D) (ls : List (Line D))
    (h : l.source = l.dest) :
    documentedAssignments (l :: ls) = documentedAssignments ls := by
  simp [documentedAssignments, List.filter_cons, h]

theorem documentedAssignments_cons_ne {D : Type} (l : Line D) (ls : List (Line D))
    (h : l.source ≠ l.dest) :
    documentedAssignments (l :: ls) = (l.source, l.dest, l.data) :: documentedAssignments ls := by
  simp [documentedAssignments, List.filter_cons, h]

/-- The loop "Add edges to the net" runs to its end when every source index is inside the
degrees vector; it keeps the size of the net, appends the documented assignments and keeps
the length of the degrees vector. -/
theorem addEdges_spec {D : Type} (lines : List (Line D)) :
    ∀ (net : Net D) (dg : Option (List Nat)),
      (∀ ds, dg = some ds → ∀ l ∈ lines, l.source < ds.length) →
      ∃ net1 dg1, addEdges (net, dg) lines = some (net1, dg1) ∧
        net1.size = net.size ∧
        net1.assignments = net.assignments ++ documentedAssignments lines ∧
        (dg = none → dg1 = none) ∧
        (∀ ds, dg = some ds → ∃ ds1, dg1 = some ds1 ∧ ds1.length = ds.length) := by
  induction lines with
  | nil =>
    intro net dg _
    exact ⟨net, dg, rfl, rfl, by simp [documentedAssignments], fun h => h,
      fun ds h => ⟨ds, h, rfl⟩⟩
  | cons l ls ih =>
    intro net dg hin
    by_cases hsd : l.source = l.dest
    · have hstep : addEdge (net, dg) l = some (net, dg) := by simp [addEdge, hsd]
      obtain ⟨net1, dg1, hrun, hsize, hasg, hnone, hsome⟩ :=
        ih net dg (fun ds hds x hx => hin ds hds x (List.mem_cons_of_mem l hx))
      refine ⟨net1, dg1, ?_, hsize, ?_, hnone, hsome⟩
      · simp only [addEdges, hstep]
        exact hrun
      · rw [documentedAssignments_cons_self l ls hsd]
        exact hasg
    · cases dg with
      | none =>
        have hstep : addEdge (net, none) l
            = some (net.assign l.source l.dest l.data, none) := by
          simp [addEdge, hsd]
        obtain ⟨net1, dg1, hrun, hsize, hasg, hnone, _⟩ :=
          ih (net.assign l.source l.dest l.data) none (fun ds hds => by cases hds)
        refine ⟨net1, dg1, ?_, ?_, ?_, fun _ => hnone rfl, fun ds hds => by cases hds⟩
        · simp only [addEdges, hstep]
          exact hrun
        · rw [hsize]
          rfl
        · rw [hasg, documentedAssignments_cons_ne l ls hsd]
          simp [Net.assign]
      | some ds =>
        have hlt : l.source < ds.length := hin ds rfl l (List.mem_cons_self l ls)
        have hget : ds[l.source]? = some ds[l.source] := List.getElem?_eq_getElem hlt
        have hstep : addEdge (net, some ds) l
            = some (net.assign l.source l.dest l.data,
                some (ds.set l.source ((ds[l.source] + 1) % sizeModulus))) := by
          simp [addEdge, hsd, hget]
        obtain ⟨net1, dg1, hrun, hsize, hasg, _, hsome⟩ :=
          ih (net.assign l.source l.dest l.data)
            (some (ds.set l.source ((ds[l.source] + 1) % sizeModulus)))
            (fun ds2 hds2 x hx => by
              cases hds2
              rw [List.length_set]
              exact hin ds rfl x (List.mem_cons_of_mem l hx))
        obtain ⟨ds1, hds1, hlen⟩ := hsome _ rfl
        refine ⟨net1, dg1, ?_, ?_, ?_, fun h => (by cases h), fun ds2 hds2 => ?_⟩
        · simp only [addEdges, hstep]
          exact hrun
        · rw [hsize]
          rfl
        · rw [hasg, documentedAssignments_cons_ne l ls hsd]
          simp [Net.assign]
        · cases hds2
          exact ⟨ds1, hds1, by rw [hlen, List.length_set]⟩

/-- The loop over the node indices runs to its end when every index is inside the degrees
vector, and keeps the length of the vector. -/
theorem fixDegrees_spec {D : Type} (nodeDegree : Net D → Nat → Nat) (net : Net D)
    (is : List Nat) :
    ∀ ds : List Nat, (∀ i ∈ is, i < ds.length) →
      ∃ ds1, fixDegrees nodeDegree net is ds = some ds1 ∧ ds1.length = ds.length := by
  induction is with
  | nil => exact fun ds _ => ⟨ds, rfl, rfl⟩
  | cons i is ih =>
    intro ds hin
    have hlt : i < ds.length := hin i (List.mem_cons_self i is)
    have hget : ds[i]? = some ds[i] := List.getElem?_eq_getElem hlt
    have hlen : (if ds[i] < nodeDegree net i then ds.set i (nodeDegree net i) else ds).length
        = ds.length := by
      split
      · exact List.length_set _ _ _
      · rfl
    obtain ⟨ds1, hrun, hl1⟩ :=
      ih (if ds[i] < nodeDegree net i then ds.set i (nodeDegree net i) else ds)
        (fun x hx => by rw [hlen]; exact hin x (List.mem_cons_of_mem i hx))
    refine ⟨ds1, ?_, by rw [hl1, hlen]⟩
    simp only [fixDegrees, hget]
    exact hrun

/-- On indices that fit `size_t`, `readDirNet` returns: the net has the size computed by the
reading loop and the documented assignments, and the degrees vector, when asked for, has one
entry per node. -/
theorem readDirNet_returns {D : Type} (nodeDegree : Net D → Nat → Nat) (lines : List (Line D))
    (wantDegrees : Bool)
    (hfit : ∀ l ∈ lines, l.source + 1 < sizeModulus ∧ l.dest + 1 < sizeModulus) :
    ∃ net degrees, readDirNet nodeDegree lines wantDegrees = some (net, degrees) ∧
      net.size = readNodeCount lines ∧
      net.assignments = documentedAssignments lines ∧
      (wantDegrees = false → degrees = none) ∧
      (wantDegrees = true → ∃ ds, degrees = some ds ∧ ds.length = readNodeCount lines) := by
  cases wantDegrees with
  | false =>
    obtain ⟨net1, dg1, hrun, hsize, hasg, hnone, _⟩ :=
      addEdges_spec lines (Net.create (readNodeCount lines)) none (fun ds hds => by cases hds)
    have hdg : dg1 = none := hnone rfl
    subst hdg
    refine ⟨net1, none, ?_, hsize, by simpa [Net.create] using hasg, fun _ => rfl,
      fun h => by cases h⟩
    simp only [readDirNet, Bool.false_eq_true, if_false, hrun]
  | true =>
    obtain ⟨net1, dg1, hrun, hsize, hasg, _, hsome⟩ :=
      addEdges_spec lines (Net.create (readNodeCount lines))
        (some (List.replicate (readNodeCount lines) 0))
        (fun ds hds l hl => by
          cases hds
          rw [List.length_replicate]
          exact source_lt_readNodeCount lines hfit l hl)
    obtain ⟨ds1, hds1, hlen1⟩ := hsome _ rfl
    subst hds1
    rw [List.length_replicate] at hlen1
    have hsize1 : net1.size = readNodeCount lines := hsize
    obtain ⟨ds2, hfix, hlen2⟩ :=
      fixDegrees_spec nodeDegree net1 (List.range net1.size) ds1
        (fun i hi => by
          rw [hlen1, ← hsize1]
          exact List.mem_range.mp hi)
    refine ⟨net1, some ds2, ?_, hsize1, by simpa [Net.create] using hasg,
      fun h => (by cases h), fun _ => ⟨ds2, rfl, by rw [hlen2, hlen1]⟩⟩
    simp only [readDirNet, if_true, hrun, hfix]

/-- Counterexample to C17 as stated: on the single line `18446744073709551615 0 5`, whose
source index is the largest `size_t`, `source + 1` wraps to 0 and the net is built with size 1,
while 1 + the largest node index is 2^64. -/
theorem readDirNet_size_wraps_counterexample :
    readDirNet (fun _ _ => 0) overflowLines false
      = some (⟨1, [(18446744073709551615, 0, 5)]⟩, none) ∧
    documentedNodeCount overflowLines = 18446744073709551616 ∧
    ¬ (∃ net degrees, readDirNet (fun _ _ => 0) overflowLines false = some (net, degrees) ∧
        net.size = documentedNodeCount overflowLines) := by
  have hrun : readDirNet (fun _ _ => 0) overflowLines false
      = some (⟨1, [(18446744073709551615, 0, 5)]⟩, none) := by decide
  have hdoc : documentedNodeCount overflowLines = 18446744073709551616 := by decide
  refine ⟨hrun, hdoc, ?_⟩
  rintro ⟨net, degrees, h, hsize⟩
  rw [hrun] at h
  cases h
  rw [hdoc] at hsize
  cases hsize

/-- C17 (amended): for every list of parsed input lines whose node indices are all below
2^64 - 1 (index + 1 is representable in `size_t`), `readDirNet` returns a net whose size is
1 + the largest node index occurring in any line (0 for an empty list), on which no assignment
`net[s][s]` was made, and on which the assignments are `net[source][dest] = data` for every
line with source different from dest, in input order. -/
theorem readDirNet_excludes_self_edges {D : Type} (nodeDegree : Net D → Nat → Nat)
    (lines : List (Line D)) (wantDegrees : Bool)
    (hfit : ∀ l ∈ lines, l.source + 1 < sizeModulus ∧ l.dest + 1 < sizeModulus) :
    ∃ net degrees, readDirNet nodeDegree lines wantDegrees = some (net, degrees) ∧
      net.size = documentedNodeCount lines ∧
      (∀ a ∈ net.assignments, a.1 ≠ a.2.1) ∧
      net.assignments
        = (lines.filter (fun l => decide (l.source ≠ l.dest))).map
            (fun l => (l.source, l.dest, l.data)) := by
  obtain ⟨net, degrees, hrun, hsize, hasg, _, _⟩ :=
    readDirNet_returns nodeDegree lines wantDegrees hfit
  refine ⟨net, degrees, hrun, ?_, ?_, hasg⟩
  · rw [hsize, readNodeCount_eq_documented lines hfit]
  · intro a ha
    rw [hasg] at ha
    simp only [documentedAssignments, List.mem_map, List.mem_filter] at ha
    obtain ⟨l, ⟨_, hl⟩, rfl⟩ := ha
    simpa using hl

/-- Instance of C17 (amended): the lines `0 2`, `1 1`, `2 0` give a net of size 3 with the two
assignments of the lines that are no self edge. -/
theorem readDirNet_excludes_self_edges_witness :
    (∀ l ∈ sampleLines, l.source + 1 < sizeModulus ∧ l.dest + 1 < sizeModulus) ∧
    readDirNet (fun _ _ => 0) sampleLines false = some (⟨3, [(0, 2, 5), (2, 0, 9)]⟩, none) ∧
    ∃ net degrees, readDirNet (fun _ _ => 0) sampleLines false = some (net, degrees) ∧
      net.size = documentedNodeCount sampleLines ∧
      (∀ a ∈ net.assignments, a.1 ≠ a.2.1) ∧
      net.assignments
        = (sampleLines.filter (fun l => decide (l.source ≠ l.dest))).map
            (fun l => (l.source, l.dest, l.data)) :=
  ⟨by decide, by decide,
    readDirNet_excludes_self_edges (fun _ _ => 0) sampleLines false (by decide)⟩

/-- C18, the code at the failing input: on two identical lines `0 1 3`, with a degrees vector
supplied, `readDirNet` returns a vector of length 2 whose entry for node 0 is at least 2,
whatever `net(i).size()` reports (one increment per line with that source), while the degree
of node 0 in the undirected network of the input is 1. -/
theorem readDirNet_degrees_duplicate_lines (nodeDegree : Net Nat → Nat → Nat) :
    ∃ net ds d0, readDirNet nodeDegree duplicateLines true = some (net, some ds) ∧
      ds.length = 2 ∧ ds[0]? = some d0 ∧ 2 ≤ d0 ∧ undirectedDegree duplicateLines 0 = 1 := by
  have hcount : readNodeCount duplicateLines = 2 := by decide
  have hadd : addEdges (Net.create 2, some [0, 0]) duplicateLines
      = some (⟨2, [(0, 1, 3), (0, 1, 3)]⟩, some [2, 0]) := by decide
  have hdeg : undirectedDegree duplicateLines 0 = 1 := by decide
  have hrange : List.range 2 = [0, 1] := by decide
  by_cases h0 : 2 < nodeDegree ⟨2, [(0, 1, 3), (0, 1, 3)]⟩ 0
  · by_cases h1 : 0 < nodeDegree ⟨2, [(0, 1, 3), (0, 1, 3)]⟩ 1
    · refine ⟨⟨2, [(0, 1, 3), (0, 1, 3)]⟩,
        [nodeDegree ⟨2, [(0, 1, 3), (0, 1, 3)]⟩ 0, nodeDegree ⟨2, [(0, 1, 3), (0, 1, 3)]⟩ 1],
        nodeDegree ⟨2, [(0, 1, 3), (0, 1, 3)]⟩ 0, ?_, rfl, rfl, by omega, hdeg⟩
      simp [readDirNet, hcount, hadd, hrange, fixDegrees, h0, h1]
    · refine ⟨⟨2, [(0, 1, 3), (0, 1, 3)]⟩,
        [nodeDegree ⟨2, [(0, 1, 3), (0, 1, 3)]⟩ 0, 0],
        nodeDegree ⟨2, [(0, 1, 3), (0, 1, 3)]⟩ 0, ?_, rfl, rfl, by omega, hdeg⟩
      simp [readDirNet, hcount, hadd, hrange, fixDegrees, h0, h1]
  · by_cases h1 : 0 < nodeDegree ⟨2, [(0, 1, 3), (0, 1, 3)]⟩ 1
    · refine ⟨⟨2, [(0, 1, 3), (0, 1, 3)]⟩,
        [2, nodeDegree ⟨2, [(0, 1, 3), (0, 1, 3)]⟩ 1], 2, ?_, rfl, rfl, le_refl 2, hdeg⟩
      simp [readDirNet, hcount, hadd, hrange, fixDegrees, h0, h1]
    · refine ⟨⟨2, [(0, 1, 3), (0, 1, 3)]⟩, [2, 0], 2, ?_, rfl, rfl, le_refl 2, hdeg⟩
      simp [readDirNet, hcount, hadd, hrange, fixDegrees, h0, h1]

end DirNetExtras

namespace TableWithStatus

/-! ## Frame of `copyElemTo` of the external variant -/

/-- C21: for external tables, a destination that is another table than the source, and
indices `i`, `loc` in range, `source.copyElemTo(dest, loc, i)` leaves the source as it was, so
its occupancy, keys and values are unchanged at every index; the destination afterwards is the
table `copyElemTo` yields, and its `isUsed(j)`, key and value at `j` are unchanged for every
`j` other than `loc`. -/
theorem ext_copyElemTo_frame {K V : Type} (src dest : ExtStatusPolicy.Table K V) (loc i : Nat)
    (_hws : ExtStatusPolicy.WF src) (_hwd : ExtStatusPolicy.WF dest)
    (_hi : i < ExtStatusPolicy.capacity src) (_hloc : loc < ExtStatusPolicy.capacity dest) :
    ((ExtStatusPolicy.copyElemToBoth src dest loc i).1 = src ∧
      ∀ j, ExtStatusPolicy.isUsed (ExtStatusPolicy.copyElemToBoth src dest loc i).1 j
          = ExtStatusPolicy.isUsed src j ∧
        ExtStatusPolicy.constRefToKey (ExtStatusPolicy.copyElemToBoth src dest loc i).1 j
          = ExtStatusPolicy.constRefToKey src j ∧
        ExtStatusPolicy.valueAt (ExtStatusPolicy.copyElemToBoth src dest loc i).1 j
          = ExtStatusPolicy.valueAt src j) ∧
    (ExtStatusPolicy.copyElemToBoth src dest loc i).2
      = ExtStatusPolicy.copyElemTo src dest loc i ∧
    ∀ j, j ≠ loc →
      ExtStatusPolicy.isUsed (ExtStatusPolicy.copyElemToBoth src dest loc i).2 j
        = ExtStatusPolicy.isUsed dest j ∧
      ExtStatusPolicy.constRefToKey (ExtStatusPolicy.copyElemToBoth src dest loc i).2 j
        = ExtStatusPolicy.constRefToKey dest j ∧
      ExtStatusPolicy.valueAt (ExtStatusPolicy.copyElemToBoth src dest loc i).2 j
        = ExtStatusPolicy.valueAt dest j := by
  have hsrc : (ExtStatusPolicy.copyElemToBoth src dest loc i).1 = src := rfl
  refine ⟨⟨hsrc, fun j => ?_⟩, rfl, fun j hj => ⟨?_, ?_, ?_⟩⟩
  · rw [hsrc]
    exact ⟨rfl, rfl, rfl⟩
  · have h := StatusArray.get_set dest.status loc j true
    simp only [hj, if_false] at h
    exact h
  · have h := SlotStore.slots_copyElemTo_other src.store dest.store loc i j hj
    simp only [ExtStatusPolicy.constRefToKey, ExtStatusPolicy.copyElemToBoth,
      SlotStore.copyElemToBoth, SlotStore.constRefToKey, h]
  · have h := SlotStore.slots_copyElemTo_other src.store dest.store loc i j hj
    simp only [ExtStatusPolicy.valueAt, ExtStatusPolicy.copyElemToBoth,
      SlotStore.copyElemToBoth, SlotStore.valueAt, h]

/-- Instance of C21: slot 1 of the sample external table is copied to slot 2 of a fresh table
of capacity 4; the source is as before, and slot 0 of the destination is as before. -/
theorem ext_copyElemTo_frame_witness :
    (ExtStatusPolicy.WF sampleExt ∧ ExtStatusPolicy.WF freshExt ∧
      1 < ExtStatusPolicy.capacity sampleExt ∧ 2 < ExtStatusPolicy.capacity freshExt ∧
      (0 : Nat) ≠ 2) ∧
    (ExtStatusPolicy.copyElemToBoth sampleExt freshExt 2 1).1 = sampleExt ∧
    ExtStatusPolicy.isUsed (ExtStatusPolicy.copyElemToBoth sampleExt freshExt 2 1).2 0
      = ExtStatusPolicy.isUsed freshExt 0 ∧
    ExtStatusPolicy.constRefToKey (ExtStatusPolicy.copyElemToBoth sampleExt freshExt 2 1).2 0
      = ExtStatusPolicy.constRefToKey freshExt 0 ∧
    ExtStatusPolicy.valueAt (ExtStatusPolicy.copyElemToBoth sampleExt freshExt 2 1).2 0
      = ExtStatusPolicy.valueAt freshExt 0 :=
  have h := ext_copyElemTo_frame sampleExt freshExt 2 1 (by decide) (by decide) (by decide)
    (by decide)
  ⟨by decide, h.1.1, h.2.2 0 (by decide)⟩

end TableWithStatus
